import Mathlib

/-! Verification of the scheduling engine of the `cool_school` repository
(`backend/app/schedule_state.py`, `backend/app/core_tools.py`,
`backend/app/models.py`), shallowly embedded in Lean.

Conventions of the embedding:
* Python `dict`s (insertion ordered) are association lists `List (String × α)`;
  `alookup` is `d[k]` / `k in d`, `aupdate` is an in-place field update of the
  value stored at a key.
* Python `float` hour values are embedded as `Rat`: every hour value in the
  system is a quarter-hour multiple (enforced by the `TimeSlot` validator), and
  on such values the sums, differences and comparisons performed by the code
  are exact in binary floating point, so `Rat` arithmetic agrees with the code.
* Timestamps (`assigned_at`, timeline timestamps) are not modelled; a timeline
  entry is modelled by its message string.
* A Python `KeyError` (unreachable on validated states) is modelled either by
  an `Option` result (`try_swap`, `core_assign_section`) or by leaving the
  offending entry untouched (`greedy_rebalance`, `find_conflicting_assignments`);
  every theorem that depends on such a spot carries a well-formedness
  hypothesis (`isWF`) mirroring the pydantic `ScheduleState` validators.
* The external MIP solver of `optimal_rebalance` is modelled by three
  explicit parameters: `pywraplp_available` (the import probe),
  `solver_created` (the `CreateSolver` probe) — each failing probe logs its
  fallback message to the live state before the greedy pass, as the source
  does — and an optional solution function (`none` models `INFEASIBLE`); the
  integer-program constraints built by the code are captured by
  `feasible_solution`.
-/

namespace CoolSchool

/- `Rat.add`/`Rat.sub` are `irreducible` for the elaborator, which blocks
`decide` on concrete states; re-allowing unfolding (locally, for this
development) lets concrete executions of the embedded code be checked by the
kernel. -/
attribute [local semireducible] Rat.add Rat.sub

/-- `models.TimeSlot`: a day-of-week (1–7) and a start/end hour. -/
structure TimeSlot where
  day : Nat
  start_hour : Rat
  end_hour : Rat
deriving DecidableEq

/-- `models.Teacher` (availability/email retained for fidelity; unused by the
operations under verification except `availability` in the validator). -/
structure Teacher where
  id : String
  name : String
  email : String
  max_load_hours : Rat
  qualified_courses : List String
  availability : List TimeSlot
deriving DecidableEq

/-- `models.Room`. -/
structure Room where
  id : String
  capacity : Nat
  features : List String
deriving DecidableEq

/-- `models.CourseSection`. -/
structure CourseSection where
  id : String
  course_code : String
  timeslots : List TimeSlot
  enrollment : Nat
  required_feature : Option String
deriving DecidableEq

/-- `models.Assignment` (the `assigned_at` timestamp is not modelled). -/
structure Assignment where
  section_id : String
  teacher_id : Option String
  room_id : Option String
deriving DecidableEq

/-- `models.ScheduleState`: the aggregate root.  Python dicts become
association lists in insertion order; the timeline keeps message strings. -/
structure ScheduleState where
  teachers : List (String × Teacher)
  rooms : List (String × Room)
  sections : List (String × CourseSection)
  assignments : List (String × Assignment)
  timeline : List String
deriving DecidableEq

/-- Association-list lookup, i.e. Python `d[k]` (`none` = `KeyError`) and
`k in d` (`isSome`). -/
def alookup (k : String) : List (String × α) → Option α
  | [] => none
  | p :: rest => if p.1 = k then some p.2 else alookup k rest

/-- In-place update of the value stored at key `k` (no-op when `k` is absent,
which on the call sites below corresponds to a Python `KeyError`). -/
def aupdate (k : String) (f : α → α) (l : List (String × α)) : List (String × α) :=
  l.map (fun p => if p.1 = k then (p.1, f p.2) else p)

/-- Modelled from the spec: `CourseSection.get_credit_hours` is called
throughout `schedule_state.py` but its definition is not among the sources
(only the pydantic `compute_weekly_hours` is); the spec's glossary defines the
weekly hours of a section as the sum of `(end_hour - start_hour)` over its
timeslots, which is also what `core_assign_section` computes inline. -/
def CourseSection.get_credit_hours (c : CourseSection) : Rat :=
  (c.timeslots.map (fun ts => ts.end_hour - ts.start_hour)).sum

/-- Modelled from the spec: `ScheduleState.log` is called throughout
`schedule_state.py`/`core_tools.py` but not defined among the sources; the
spec describes the timeline as an append-only log of entries. The entry kind
argument is dropped (entries are modelled by their messages). -/
def ScheduleState.log (s : ScheduleState) (msg : String) : ScheduleState :=
  { s with timeline := s.timeline ++ [msg] }

/-- The summation loop shared by `ScheduleManager.compute_teacher_load` and
`_compute_load_for_state`: total hours of the assignments whose `teacher_id`
equals the given id.  A missing section (Python `KeyError`) contributes `0`;
well-formed states have no such entry. -/
def loadIn (sections : List (String × CourseSection))
    (assignments : List (String × Assignment)) (tid : String) : Rat :=
  (assignments.map (fun p =>
    if p.2.teacher_id = some tid then
      match alookup p.2.section_id sections with
      | some sec => sec.get_credit_hours
      | none => 0
    else 0)).sum

/-- `ScheduleManager.compute_teacher_load`. -/
def compute_teacher_load (s : ScheduleState) (t : Teacher) : Rat :=
  loadIn s.sections s.assignments t.id

/-- The loop of `ScheduleManager.find_overload` over the teachers map. -/
def find_overload_go (s : ScheduleState) :
    List (String × Teacher) → List (String × Rat × Rat)
  | [] => []
  | p :: rest =>
    let current_load := compute_teacher_load s p.2
    if current_load > p.2.max_load_hours then
      (p.1, current_load, p.2.max_load_hours) :: find_overload_go s rest
    else
      find_overload_go s rest

/-- `ScheduleManager.find_overload`. -/
def find_overload (s : ScheduleState) : List (String × Rat × Rat) :=
  find_overload_go s s.teachers

/-- The overlap test of `ScheduleManager.find_conflicting_assignments`
(lines 176–179): same day and intervals intersect. -/
def slots_conflict (ts existing : TimeSlot) : Bool :=
  decide (ts.day = existing.day) &&
    !(decide (ts.end_hour ≤ existing.start_hour) ||
      decide (ts.start_hour ≥ existing.end_hour))

/-- The overlap test of the pydantic validators
`Teacher.validate_no_overlapping_slots` and
`CourseSection.validate_no_overlapping_timeslots` (models.py lines 116–118
and 189–191). -/
def validator_overlap (slot1 slot2 : TimeSlot) : Bool :=
  decide (slot1.day = slot2.day) &&
    !(decide (slot1.end_hour ≤ slot2.start_hour) ||
      decide (slot2.end_hour ≤ slot1.start_hour))

/-- The pairwise loop of the two no-overlap validators: `true` iff no two
distinct slots of the list overlap. -/
def no_overlapping_slots : List TimeSlot → Bool
  | [] => true
  | slot1 :: rest =>
    rest.all (fun slot2 => !validator_overlap slot1 slot2) && no_overlapping_slots rest

/-- The loop of `ScheduleManager.find_conflicting_assignments`: walks the
assignments, accumulating each teacher's timeslots (`teacher_schedules`) and
recording `(teacher_id, section_id)` once per timeslot of a section that
overlaps a previously accumulated slot of the same teacher. -/
def conflict_scan (sections : List (String × CourseSection)) :
    List (String × Assignment) → List (String × List TimeSlot) →
      List (String × String) → List (String × String)
  | [], _, conflicts => conflicts
  | p :: rest, schedules, conflicts =>
    match p.2.teacher_id with
    | none => conflict_scan sections rest schedules conflicts
    | some tid =>
      -- Python `if assignment.teacher_id:` — the empty string is falsy
      if tid = "" then conflict_scan sections rest schedules conflicts
      else
        match alookup p.2.section_id sections with
        | none => conflict_scan sections rest schedules conflicts
        | some sec =>
          let sched := (alookup tid schedules).getD []
          let newConf := sec.timeslots.filterMap (fun ts =>
            if sched.any (fun ex => slots_conflict ts ex) then
              some (tid, p.2.section_id)
            else none)
          let schedules' :=
            if (alookup tid schedules).isSome then
              aupdate tid (fun old => old ++ sec.timeslots) schedules
            else schedules ++ [(tid, sec.timeslots)]
          conflict_scan sections rest schedules' (conflicts ++ newConf)

/-- `ScheduleManager.find_conflicting_assignments`. -/
def find_conflicting_assignments (s : ScheduleState) : List (String × String) :=
  conflict_scan s.sections s.assignments [] []

/-- `ScheduleManager.teacher_name_to_id`: id membership first, then
case-insensitive full-name match. -/
def teacher_name_to_id (s : ScheduleState) (name_or_id : String) : Option String :=
  if (alookup name_or_id s.teachers).isSome then some name_or_id
  else (s.teachers.find? (fun p => p.2.name.toLower == name_or_id.toLower)).map Prod.fst

/-- `ScheduleManager.try_swap`.  Result `none` models an uncaught Python
`KeyError` (the assignment's section id missing from the sections map, which
validated states exclude); `some ((ok, reason), s')` is the `(bool, str)`
result paired with the state after the call. -/
def try_swap (s : ScheduleState) (section_id from_teacher_id to_teacher_id : String) :
    Option ((Bool × String) × ScheduleState) :=
  match alookup section_id s.assignments with
  | none => some ((false, "Section " ++ section_id ++ " not found"), s)
  | some assignment =>
    match alookup from_teacher_id s.teachers with
    | none => some ((false, "Teacher " ++ from_teacher_id ++ " not found"), s)
    | some from_teacher =>
      match alookup to_teacher_id s.teachers with
      | none => some ((false, "Teacher " ++ to_teacher_id ++ " not found"), s)
      | some to_teacher =>
        if assignment.teacher_id ≠ some from_teacher_id then
          some ((false, "Section " ++ section_id ++ " is not assigned to teacher "
            ++ from_teacher_id), s)
        else
          match alookup section_id s.sections with
          | none => none
          | some sec =>
            let current_load := compute_teacher_load s to_teacher
            if current_load + sec.get_credit_hours > to_teacher.max_load_hours then
              some ((false, "Assignment would overload teacher " ++ to_teacher.name), s)
            else if sec.course_code ∉ to_teacher.qualified_courses then
              some ((false, "Teacher " ++ to_teacher.name ++ " is not qualified to teach "
                ++ sec.course_code), s)
            else
              let assignments' := aupdate section_id
                (fun a => { a with teacher_id := some to_teacher_id }) s.assignments
              let s' := { s with assignments := assignments' }
              some ((true, "Swap successful"),
                s'.log ("Swapped " ++ section_id ++ " from " ++ from_teacher.name
                  ++ " to " ++ to_teacher.name))

/-- A `core_tools` result: either the `error` key of the returned dict or the
success payload (`message`, `new_load`). -/
inductive ToolOutcome where
  | err (msg : String)
  | ok (msg : String) (new_load : String)
deriving DecidableEq

/-- One-decimal rendering of a rational, standing in for Python `:.1f` / `str`
float formatting inside messages.  The exact digits of Python float formatting
are abstracted; no theorem below depends on them. -/
def fmtRat (q : Rat) : String := toString q

/-- `core_tools.core_assign_section`.  Result `none` models an uncaught Python
`KeyError` (assigned teacher id or section id missing from the maps, which
validated states exclude). -/
def core_assign_section (s : ScheduleState) (section_id teacher : String) :
    Option (ToolOutcome × ScheduleState) :=
  match alookup section_id s.assignments with
  | none => some (.err ("Section " ++ section_id ++ " not found"), s)
  | some assignment =>
    match assignment.teacher_id with
    | some cur_tid =>
      -- Python tests `is not None`, so even an empty-string id takes this branch
      match alookup cur_tid s.teachers with
      | none => none
      | some current_teacher =>
        some (.err ("Section " ++ section_id ++ " is already assigned to "
          ++ current_teacher.name), s)
    | none =>
      match teacher_name_to_id s teacher with
      | none => some (.err ("Teacher '" ++ teacher ++ "' not found"), s)
      | some teacher_id =>
        match alookup section_id s.sections, alookup teacher_id s.teachers with
        | some sec, some teacher_obj =>
          if sec.course_code ∉ teacher_obj.qualified_courses then
            some (.err ("Teacher " ++ teacher_obj.name ++ " is not qualified to teach "
              ++ sec.course_code ++ ". Qualified for: "
              ++ String.intercalate ", " teacher_obj.qualified_courses), s)
          else
            let current_load := compute_teacher_load s teacher_obj
            let section_hours :=
              (sec.timeslots.map (fun slot => slot.end_hour - slot.start_hour)).sum
            if current_load + section_hours > teacher_obj.max_load_hours then
              some (.err ("Assignment would overload teacher " ++ teacher_obj.name
                ++ " (" ++ fmtRat (current_load + section_hours) ++ " > "
                ++ fmtRat teacher_obj.max_load_hours ++ " hours)"), s)
            else
              let assignments' := aupdate section_id
                (fun a => { a with teacher_id := some teacher_id }) s.assignments
              let s' := { s with assignments := assignments' }
              some (.ok ("Successfully assigned " ++ section_id ++ " to " ++ teacher_obj.name)
                  (fmtRat (current_load + section_hours) ++ "/"
                    ++ fmtRat teacher_obj.max_load_hours ++ " hours"),
                s'.log ("Assigned " ++ section_id ++ " to " ++ teacher_obj.name))
        | _, _ => none

/-- The candidate-search inner loop of `ScheduleManager.greedy_rebalance`
(lines 263–282): among the other teachers qualified for the course, with room
under their own cap and with a load lower by strictly more than `2.0`, pick
the first with the largest load difference.  The accumulator mirrors the
`best_teacher` / `best_load_diff` variables. -/
def pick_best_go (cur_tid course : String) (section_hours current_load : Rat)
    (loads : List (String × Rat)) :
    List (String × Teacher) → Option String × Rat → Option String × Rat
  | [], acc => acc
  | p :: rest, acc =>
    if p.1 ≠ cur_tid ∧ course ∈ p.2.qualified_courses then
      let target_load := (alookup p.1 loads).getD 0
      if target_load + section_hours ≤ p.2.max_load_hours ∧
          current_load - target_load > 2 then
        let load_diff := current_load - target_load
        if load_diff > acc.2 then
          pick_best_go cur_tid course section_hours current_load loads rest
            (some p.1, load_diff)
        else
          pick_best_go cur_tid course section_hours current_load loads rest acc
      else
        pick_best_go cur_tid course section_hours current_load loads rest acc
    else
      pick_best_go cur_tid course section_hours current_load loads rest acc

/-- One iteration of the outer loop of `greedy_rebalance` (lines 256–308) on a
single assignment: returns the (possibly reassigned) assignment, the updated
`teacher_loads` tracker and the timeline messages logged.  A missing teacher
or section (Python `KeyError`) leaves the entry untouched. -/
def greedy_step (s : ScheduleState) (loads : List (String × Rat))
    (p : String × Assignment) : Assignment × List (String × Rat) × List String :=
  let a := p.2
  match a.teacher_id with
  | none => (a, loads, [])
  | some cur_tid =>
    -- Python `if assignment.teacher_id:` — the empty string is falsy
    if cur_tid = "" then (a, loads, [])
    else
      match alookup cur_tid s.teachers, alookup a.section_id s.sections with
      | some current_teacher, some sec =>
        let current_load := (alookup cur_tid loads).getD 0
        let section_hours := sec.get_credit_hours
        match pick_best_go cur_tid sec.course_code section_hours current_load loads
            s.teachers (none, 0) with
        | (some best, _) =>
          -- Python `if best_teacher:` — the empty string is falsy
          if best = "" then (a, loads, [])
          else
            let new_name := ((alookup best s.teachers).map Teacher.name).getD ""
            ({ a with teacher_id := some best },
             aupdate best (fun x => x + section_hours)
               (aupdate current_teacher.id (fun x => x - section_hours) loads),
             ["Rebalanced: moved " ++ a.section_id ++ " from " ++ current_teacher.name
               ++ " to " ++ new_name])
        | (none, _) => (a, loads, [])
      | _, _ => (a, loads, [])

/-- The outer loop of `greedy_rebalance` over the assignments map, threading
the `teacher_loads` tracker and rebuilding the assignments in place. -/
def greedy_go (s : ScheduleState) (loads : List (String × Rat)) :
    List (String × Assignment) →
      List (String × Rat) × List (String × Assignment) × List String
  | [] => (loads, [], [])
  | p :: rest =>
    let r := greedy_step s loads p
    let r2 := greedy_go s r.2.1 rest
    (r2.1, (p.1, r.1) :: r2.2.1, r.2.2 ++ r2.2.2)

/-- `ScheduleManager.greedy_rebalance`.  Exactly as in the source, the
`max_load_hours` override parameter is accepted but never read. -/
def greedy_rebalance (s : ScheduleState) (max_load_hours : Option Rat) : ScheduleState :=
  let teacher_loads := s.teachers.map (fun p => (p.1, compute_teacher_load s p.2))
  let r := greedy_go s teacher_loads s.assignments
  { s with assignments := r.2.1, timeline := s.timeline ++ r.2.2 }

/-- Constraint 2's effective bound (line 370):
`max_load_hours if max_load_hours else teacher.max_load_hours` — note that a
`0.0` override is falsy in Python and falls back to the teacher's own cap. -/
def effectiveMax (max_load_hours : Option Rat) (t : Teacher) : Rat :=
  match max_load_hours with
  | some m => if m ≠ 0 then m else t.max_load_hours
  | none => t.max_load_hours

/-- The teachers qualified for a section's course, in teacher-map order
(the variables not forced to `0` on lines 346–354). -/
def qualified_teacher_ids (s : ScheduleState) (sec : CourseSection) : List String :=
  (s.teachers.filter (fun p => sec.course_code ∈ p.2.qualified_courses)).map Prod.fst

/-- The load constraint sum of Constraint 2 (lines 371–374) under a 0/1
solution given as a per-section chosen teacher. -/
def solver_load (s : ScheduleState) (sol : String → Option String) (tid : String) : Rat :=
  (s.sections.map (fun p => if sol p.1 = some tid then p.2.get_credit_hours else 0)).sum

/-- A 0/1 assignment of the integer program of `optimal_rebalance`, given as
the per-section chosen teacher, satisfies the program's constraints:
Constraint 1 — every section with at least one qualified teacher is assigned
to exactly one qualified teacher, sections without qualified teachers have all
variables forced to `0`; Constraint 2 — every teacher's assigned hours stay
within `effectiveMax`. -/
def feasible_solution (s : ScheduleState) (max_load_hours : Option Rat)
    (sol : String → Option String) : Bool :=
  s.sections.all (fun p =>
    match sol p.1 with
    | some tid => decide (tid ∈ qualified_teacher_ids s p.2)
    | none => (qualified_teacher_ids s p.2).isEmpty) &&
  s.teachers.all (fun p => decide (solver_load s sol p.1 ≤ effectiveMax max_load_hours p.2))

/-- The solution-application loop of `optimal_rebalance` (lines 401–425) for
one section: make sure an `Assignment` record exists, then write the chosen
teacher and log when it changed.  Name lookups that would raise `KeyError` in
Python render a placeholder; validated states never reach them. -/
def apply_solution_step (s : ScheduleState) (sol : String → Option String)
    (st : ScheduleState) (p : String × CourseSection) : ScheduleState :=
  let sid := p.1
  let st1 :=
    if (alookup sid st.assignments).isSome then st
    else { st with assignments := st.assignments ++ [(sid, ⟨sid, none, none⟩)] }
  match sol sid with
  | none => st1
  | some teacher_id =>
    match alookup sid st1.assignments with
    | none => st1
    | some a =>
      let old_teacher_id := a.teacher_id
      let upd := aupdate sid (fun b => { b with teacher_id := some teacher_id })
        st1.assignments
      let st2 := { st1 with assignments := upd }
      if old_teacher_id ≠ some teacher_id then
        let old_name :=
          match old_teacher_id with
          | some x =>
            -- Python `if old_teacher_id` — falsy for the empty string
            if x = "" then "Unassigned"
            else ((alookup x s.teachers).map Teacher.name).getD "Unassigned"
          | none => "Unassigned"
        let new_name := ((alookup teacher_id s.teachers).map Teacher.name).getD ""
        st2.log ("OR-Tools rebalanced: moved " ++ sid ++ " from " ++ old_name
          ++ " to " ++ new_name)
      else st2

/-- Application of a solver solution to a deep copy of the state
(lines 401–428): iterate the sections map and write each chosen teacher. -/
def apply_solution (s : ScheduleState) (sol : String → Option String) : ScheduleState :=
  s.sections.foldl (apply_solution_step s sol) s

/-- `ScheduleManager.optimal_rebalance`.  `pywraplp_available` models the
`pywraplp` import probe (line 316) and `solver_created` the `CreateSolver`
probe (line 325), both checked before the empty-maps test; each failing probe
logs its fallback message to the live state (lines 317, 327–329) and runs the
greedy pass on that logged state.  `solve_result` models the solver outcome:
`some sol` for an `OPTIMAL`/`FEASIBLE` 0/1 solution, `none` for `INFEASIBLE`
— that fallback's failure message goes to the discarded deep copy (line 431),
not to the state the greedy pass mutates. -/
def optimal_rebalance (pywraplp_available solver_created : Bool)
    (solve_result : Option (String → Option String))
    (max_load_hours : Option Rat) (s : ScheduleState) : ScheduleState :=
  if !pywraplp_available then
    greedy_rebalance
      (s.log "OR-Tools not available, falling back to greedy rebalancing")
      max_load_hours
  else if !solver_created then
    greedy_rebalance
      (s.log "OR-Tools solver not available, falling back to greedy rebalancing")
      max_load_hours
  else if s.sections.isEmpty || s.teachers.isEmpty then s
  else
    match solve_result with
    | some sol => apply_solution s sol
    | none => greedy_rebalance s max_load_hours

/-- The spec's conserved quantity: the sum of `compute_teacher_load` over the
teachers map. -/
def total_load (s : ScheduleState) : Rat :=
  (s.teachers.map (fun p => compute_teacher_load s p.2)).sum

/-- Well-formedness of a state, mirroring the pydantic validators: unique map
keys, keys agreeing with the stored ids, valid timeslots
(`end_hour > start_hour`), every assignment keyed by its section id with an
existing section, and every assigned teacher id non-empty and existing
(`ScheduleState.validate_assignment_references`; the spec additionally states
that non-null teacher ids exist in the teachers map). -/
def isWF (s : ScheduleState) : Bool :=
  decide ((s.teachers.map Prod.fst).Nodup) &&
  decide ((s.sections.map Prod.fst).Nodup) &&
  decide ((s.assignments.map Prod.fst).Nodup) &&
  s.teachers.all (fun p => p.2.id == p.1 && p.1 != "") &&
  s.sections.all (fun p => p.2.id == p.1 &&
    p.2.timeslots.all (fun ts => decide (ts.start_hour < ts.end_hour))) &&
  s.assignments.all (fun p =>
    p.2.section_id == p.1 &&
    (alookup p.2.section_id s.sections).isSome &&
    (match p.2.teacher_id with
     | some tid => tid != "" && (alookup tid s.teachers).isSome
     | none => true))

/-- Every section has an `Assignment` record (the spec's 1:1
section–assignment correspondence). -/
def sections_covered (s : ScheduleState) : Bool :=
  s.sections.all (fun p => (alookup p.1 s.assignments).isSome)

/-- Every assignment record has a (non-null) teacher. -/
def all_assigned (s : ScheduleState) : Bool :=
  s.assignments.all (fun p => p.2.teacher_id.isSome)

/-- Every section has at least one qualified teacher. -/
def all_courses_staffable (s : ScheduleState) : Bool :=
  s.sections.all (fun p => !(qualified_teacher_ids s p.2).isEmpty)

/-! Basic lemmas about association lists. -/

theorem alookup_eq_some_mem {l : List (String × α)} {k : String} {v : α}
    (h : alookup k l = some v) : (k, v) ∈ l := by
  induction l with
  | nil => simp [alookup] at h
  | cons p rest ih =>
    rw [alookup] at h
    split at h
    · rename_i hk
      have hv : p.2 = v := Option.some_inj.mp h
      subst hv
      subst hk
      exact List.mem_cons_self p rest
    · exact List.mem_cons_of_mem p (ih h)

theorem alookup_of_mem_nodup {l : List (String × α)} {k : String} {v : α}
    (hm : (k, v) ∈ l) (hnd : (l.map Prod.fst).Nodup) : alookup k l = some v := by
  induction l with
  | nil => simp at hm
  | cons p rest ih =>
    simp only [List.map_cons, List.nodup_cons] at hnd
    rcases List.mem_cons.mp hm with h | h
    · rw [← h, alookup, if_pos rfl]
    · rw [alookup]
      have hk : p.1 ≠ k := by
        intro hk
        exact hnd.1 (hk ▸ (List.mem_map.mpr ⟨(k, v), h, rfl⟩))
      rw [if_neg hk]
      exact ih h hnd.2

theorem alookup_aupdate (k k' : String) (f : α → α) (l : List (String × α)) :
    alookup k (aupdate k' f l) =
      if k' = k then (alookup k l).map f else alookup k l := by
  induction l with
  | nil => simp [alookup, aupdate]
  | cons p rest ih =>
    by_cases h1 : p.1 = k' <;> by_cases h2 : p.1 = k
    · have hk : k' = k := h1 ▸ h2
      simp [alookup, aupdate, h1, h2, hk]
    · have hk : ¬ k' = k := fun hc => h2 (h1.trans hc)
      simp only [aupdate] at ih
      simp [alookup, aupdate, h1, h2, hk, ih]
    · have hk : ¬ k' = k := fun hc => h1 (h2.trans hc.symm)
      have hk2 : ¬ k = k' := fun hc => hk hc.symm
      simp [alookup, aupdate, h1, h2, hk, hk2]
    · simp only [aupdate] at ih
      simp [alookup, aupdate, h1, h2, ih]

theorem aupdate_keys (k : String) (f : α → α) (l : List (String × α)) :
    (aupdate k f l).map Prod.fst = l.map Prod.fst := by
  induction l with
  | nil => rfl
  | cons p rest ih =>
    simp only [aupdate, List.map_cons] at ih ⊢
    split <;> simp [ih]

theorem alookup_isSome_aupdate (k k' : String) (f : α → α) (l : List (String × α)) :
    (alookup k (aupdate k' f l)).isSome = (alookup k l).isSome := by
  rw [alookup_aupdate]
  split <;> simp

theorem alookup_mapSnd {l : List (String × α)} {k : String} {v : α}
    (g : String × α → β) (hm : (k, v) ∈ l) (hnd : (l.map Prod.fst).Nodup) :
    alookup k (l.map (fun p => (p.1, g p))) = some (g (k, v)) := by
  have hmem : (k, g (k, v)) ∈ l.map (fun p => (p.1, g p)) := by
    exact List.mem_map.mpr ⟨(k, v), hm, rfl⟩
  apply alookup_of_mem_nodup hmem
  have : (l.map (fun p => (p.1, g p))).map Prod.fst = l.map Prod.fst := by
    simp
  rw [this]
  exact hnd

/-! Unpacking the well-formedness checker. -/

theorem isWF_parts {s : ScheduleState} (h : isWF s = true) :
    (s.teachers.map Prod.fst).Nodup ∧
    (s.sections.map Prod.fst).Nodup ∧
    (s.assignments.map Prod.fst).Nodup ∧
    (∀ p ∈ s.teachers, p.2.id = p.1 ∧ p.1 ≠ "") ∧
    (∀ p ∈ s.sections, p.2.id = p.1 ∧
      ∀ ts ∈ p.2.timeslots, ts.start_hour < ts.end_hour) ∧
    (∀ p ∈ s.assignments, p.2.section_id = p.1 ∧
      (alookup p.2.section_id s.sections).isSome = true ∧
      ∀ tid, p.2.teacher_id = some tid →
        tid ≠ "" ∧ (alookup tid s.teachers).isSome = true) := by
  simp only [isWF, Bool.and_eq_true, decide_eq_true_eq, List.all_eq_true] at h
  obtain ⟨⟨⟨⟨⟨h1, h2⟩, h3⟩, h4⟩, h5⟩, h6⟩ := h
  refine ⟨h1, h2, h3, ?_, ?_, ?_⟩
  · intro p hp
    have := h4 p hp
    simp only [Bool.and_eq_true, beq_iff_eq, bne_iff_ne, ne_eq] at this
    exact this
  · intro p hp
    have := h5 p hp
    simp only [Bool.and_eq_true, beq_iff_eq, List.all_eq_true, decide_eq_true_eq] at this
    exact this
  · intro p hp
    have := h6 p hp
    simp only [Bool.and_eq_true, beq_iff_eq] at this
    refine ⟨this.1.1, this.1.2, ?_⟩
    intro tid htid
    rcases hteq : p.2.teacher_id with _ | tid2
    · rw [hteq] at htid; cases htid
    · rw [hteq] at htid this
      obtain ⟨rfl⟩ := Option.some_inj.mp htid
      simp only [Bool.and_eq_true, bne_iff_ne, ne_eq] at this
      exact this.2

theorem section_hours_nonneg {sec : CourseSection}
    (h : ∀ ts ∈ sec.timeslots, ts.start_hour < ts.end_hour) :
    0 ≤ sec.get_credit_hours := by
  apply List.sum_nonneg
  intro x hx
  rcases List.mem_map.mp hx with ⟨ts, hts, rfl⟩
  have := h ts hts
  linarith

/-! Claim C10: the greedy rebalance ignores its override argument. -/

/-- C10: the result of `greedy_rebalance` does not depend on its
`max_load_hours` argument — the source accepts the parameter but never reads
it, so any two override values (including `None`) produce identical states,
in particular identical teacher assignments. -/
theorem c10_greedy_ignores_override (s : ScheduleState) (m1 m2 : Option Rat) :
    greedy_rebalance s m1 = greedy_rebalance s m2 := rfl

/-! Claim C9: greedy preserves the assigned/unassigned partition. -/

theorem greedy_step_teacher_isNone (s : ScheduleState) (loads : List (String × Rat))
    (p : String × Assignment) :
    (greedy_step s loads p).1.teacher_id.isNone = p.2.teacher_id.isNone := by
  unfold greedy_step
  rcases h : p.2.teacher_id with _ | cur
  · simp [h]
  · simp only [h]
    split
    · simp [h]
    · split
      · split
        · split
          · simp [h]
          · simp
        · simp [h]
      · simp [h]

theorem greedy_go_teacher_isNone (s : ScheduleState) (loads : List (String × Rat))
    (l : List (String × Assignment)) :
    ((greedy_go s loads l).2.1).map (fun p => (p.1, p.2.teacher_id.isNone)) =
      l.map (fun p => (p.1, p.2.teacher_id.isNone)) := by
  induction l generalizing loads with
  | nil => rfl
  | cons p rest ih =>
    simp only [greedy_go, List.map_cons, List.cons.injEq]
    exact ⟨by rw [greedy_step_teacher_isNone], ih _⟩

/-- C9: `greedy_rebalance` preserves the assigned/unassigned partition of the
sections: for every assignment record (keys and order also preserved), the
`teacher_id` is null after the call iff it was null before — greedy never
assigns a previously unassigned section and never unassigns an assigned one. -/
theorem c9_greedy_preserves_partition (s : ScheduleState) (m : Option Rat) :
    ((greedy_rebalance s m).assignments).map (fun p => (p.1, p.2.teacher_id.isNone)) =
      s.assignments.map (fun p => (p.1, p.2.teacher_id.isNone)) := by
  unfold greedy_rebalance
  exact greedy_go_teacher_isNone s _ s.assignments

/-! Claim C6: `find_overload` returns exactly the strictly overloaded
teachers, in teacher-map insertion order. -/

theorem find_overload_go_eq_filterMap (s : ScheduleState)
    (l : List (String × Teacher)) :
    find_overload_go s l =
      (l.filter (fun p => compute_teacher_load s p.2 > p.2.max_load_hours)).map
        (fun p => (p.1, compute_teacher_load s p.2, p.2.max_load_hours)) := by
  induction l with
  | nil => rfl
  | cons p rest ih =>
    simp only [find_overload_go, List.filter_cons]
    by_cases h : compute_teacher_load s p.2 > p.2.max_load_hours <;> simp [h, ih]

/-- C6: `find_overload` returns exactly the teachers whose computed load is
strictly greater than their `max_load_hours` (so a teacher at exactly the cap
is not listed), as `(teacher_id, load, max_load)` triples in the insertion
order of the teachers map: it equals the order-preserving filter of the
teachers map by `load > max_load_hours`, and membership is characterized by
the strict inequality. -/
theorem c6_find_overload_exact (s : ScheduleState) :
    find_overload s =
      (s.teachers.filter (fun p => compute_teacher_load s p.2 > p.2.max_load_hours)).map
        (fun p => (p.1, compute_teacher_load s p.2, p.2.max_load_hours)) ∧
    ∀ tid l m, (tid, l, m) ∈ find_overload s ↔
      ∃ t, (tid, t) ∈ s.teachers ∧ compute_teacher_load s t > t.max_load_hours ∧
        l = compute_teacher_load s t ∧ m = t.max_load_hours := by
  have he := find_overload_go_eq_filterMap s s.teachers
  refine ⟨he, ?_⟩
  intro tid l m
  rw [find_overload, he]
  constructor
  · intro hm
    rcases List.mem_map.mp hm with ⟨p, hp, heq⟩
    rcases List.mem_filter.mp hp with ⟨hmem, hcond⟩
    simp only [Prod.mk.injEq] at heq
    obtain ⟨h1, h2, h3⟩ := heq
    refine ⟨p.2, ?_, by simpa using hcond, h2.symm, h3.symm⟩
    have : p = (tid, p.2) := by
      rw [← h1]
    rw [← this]
    exact hmem
  · rintro ⟨t, hmem, hgt, rfl, rfl⟩
    apply List.mem_map.mpr
    refine ⟨(tid, t), ?_, rfl⟩
    apply List.mem_filter.mpr
    exact ⟨hmem, by simpa using hgt⟩

/-! Claim C5: touching or different-day slots are never treated as
overlapping. -/

/-- A concrete state exercising the conflict scanner on touching slots: one
teacher assigned two sections whose single slots touch end-to-start on the
same day, plus a section on a different day with the same hours. -/
def touchState : ScheduleState :=
  ⟨[("t1", ⟨"t1", "Tara", "t1@u", 20, ["C"], [⟨1, 9, 11⟩, ⟨1, 11, 13⟩]⟩)], [],
   [("A", ⟨"A", "C", [⟨1, 9, 11⟩], 10, none⟩),
    ("B", ⟨"B", "C", [⟨1, 11, 13⟩], 10, none⟩),
    ("D", ⟨"D", "C", [⟨2, 9, 11⟩], 10, none⟩)],
   [("A", ⟨"A", some "t1", none⟩), ("B", ⟨"B", some "t1", none⟩),
    ("D", ⟨"D", some "t1", none⟩)], []⟩

/-- C5: two slots on the same day with `a.end_hour = b.start_hour` (touching)
are never treated as overlapping, and two slots on different days are never
treated as overlapping regardless of hours — for the overlap test of
`find_conflicting_assignments` (in both operand orders) and for the overlap
test of the availability/timeslot validators (in both operand orders); and on
a concrete state whose same-teacher sections only touch or sit on different
days, `find_conflicting_assignments` reports nothing and the availability
validator accepts. -/
theorem c5_touching_and_other_days_not_overlapping :
    (∀ a b : TimeSlot, a.day = b.day → a.end_hour = b.start_hour →
      slots_conflict a b = false ∧ slots_conflict b a = false ∧
      validator_overlap a b = false ∧ validator_overlap b a = false) ∧
    (∀ a b : TimeSlot, a.day ≠ b.day →
      slots_conflict a b = false ∧ validator_overlap a b = false) ∧
    find_conflicting_assignments touchState = [] ∧
    no_overlapping_slots [⟨1, 9, 11⟩, ⟨1, 11, 13⟩, ⟨2, 10, 12⟩] = true := by
  refine ⟨?_, ?_, by decide, by decide⟩
  · intro a b hday hte
    refine ⟨?_, ?_, ?_, ?_⟩ <;>
      simp [slots_conflict, validator_overlap, hday, hte, le_refl]
  · intro a b hday
    constructor <;> simp [slots_conflict, validator_overlap, hday]

/-- Witness for C5: the universally quantified parts applied to concrete
touching and different-day slots. -/
theorem c5_witness :
    ((⟨1, 9, 11⟩ : TimeSlot).day = (⟨1, 11, 13⟩ : TimeSlot).day ∧
      (⟨1, 9, 11⟩ : TimeSlot).end_hour = (⟨1, 11, 13⟩ : TimeSlot).start_hour ∧
      slots_conflict ⟨1, 9, 11⟩ ⟨1, 11, 13⟩ = false ∧
      validator_overlap ⟨1, 9, 11⟩ ⟨1, 11, 13⟩ = false) ∧
    ((⟨1, 9, 11⟩ : TimeSlot).day ≠ (⟨2, 9, 11⟩ : TimeSlot).day ∧
      slots_conflict ⟨1, 9, 11⟩ ⟨2, 9, 11⟩ = false) := by
  refine ⟨⟨rfl, rfl, ?_, ?_⟩, ⟨by decide, ?_⟩⟩
  · exact (c5_touching_and_other_days_not_overlapping.1 ⟨1, 9, 11⟩ ⟨1, 11, 13⟩ rfl rfl).1
  · exact (c5_touching_and_other_days_not_overlapping.1 ⟨1, 9, 11⟩ ⟨1, 11, 13⟩ rfl rfl).2.2.1
  · exact (c5_touching_and_other_days_not_overlapping.2.1 ⟨1, 9, 11⟩ ⟨2, 9, 11⟩ (by decide)).1

/-! Claim C4: failed mutations leave the state untouched. -/

theorem core_assign_err_state {s s' : ScheduleState} {sid t msg : String}
    (h : core_assign_section s sid t = some (.err msg, s')) : s' = s := by
  unfold core_assign_section at h
  repeat' split at h
  all_goals try (dsimp only [] at h)
  all_goals repeat' split at h
  all_goals simp_all

theorem try_swap_false_state {s s' : ScheduleState} {sid ftid ttid msg : String}
    (h : try_swap s sid ftid ttid = some ((false, msg), s')) : s' = s := by
  unfold try_swap at h
  repeat' split at h
  all_goals try (dsimp only [] at h)
  all_goals repeat' split at h
  all_goals simp_all

/-- C4: every failing `core_assign_section` or `try_swap` call leaves the
`ScheduleState` exactly as it was (no assignment modified, nothing appended to
the timeline); and assigning an already-assigned section fails with a message
that contains the currently assigned teacher's name and changes nothing. -/
theorem c4_failed_mutations_preserve_state (s : ScheduleState) :
    (∀ sid t msg s', core_assign_section s sid t = some (.err msg, s') → s' = s) ∧
    (∀ sid ftid ttid msg s',
      try_swap s sid ftid ttid = some ((false, msg), s') → s' = s) ∧
    (∀ sid x a cur curT, alookup sid s.assignments = some a →
      a.teacher_id = some cur → alookup cur s.teachers = some curT →
      core_assign_section s sid x =
        some (.err ("Section " ++ sid ++ " is already assigned to " ++ curT.name), s)) := by
  refine ⟨?_, ?_, ?_⟩
  · intro sid t msg s' h
    exact core_assign_err_state h
  · intro sid ftid ttid msg s' h
    exact try_swap_false_state h
  · intro sid x a cur curT h1 h2 h3
    simp [core_assign_section, h1, h2, h3]

/-- Witness for C4 on a concrete state: a swap whose target teacher would be
overloaded fails and returns the state unchanged, and assigning the
already-assigned section fails with the assigned teacher's name in the
message, also unchanged. -/
theorem c4_witness :
    try_swap touchState "A" "zz" "t1" =
      some ((false, "Teacher " ++ "zz" ++ " not found"), touchState) ∧
    core_assign_section touchState "A" "Tara" =
      some (.err ("Section " ++ "A" ++ " is already assigned to " ++ "Tara"), touchState) ∧
    (∀ msg s', try_swap touchState "A" "zz" "t1" = some ((false, msg), s') → s' = touchState) := by
  refine ⟨by decide, ?_, ?_⟩
  · exact (c4_failed_mutations_preserve_state touchState).2.2 "A" "Tara"
      ⟨"A", some "t1", none⟩ "t1" ⟨"t1", "Tara", "t1@u", 20, ["C"], [⟨1, 9, 11⟩, ⟨1, 11, 13⟩]⟩
      (by decide) rfl (by decide)
  · intro msg s' h
    exact (c4_failed_mutations_preserve_state touchState).2.1 "A" "zz" "t1" msg s' h

/-! Claim C8: no time-conflict check in assign/swap. -/

/-- A state where assigning section `S2` to teacher `tA` (already teaching the
overlapping `S1`) passes every check `core_assign_section` makes. -/
def clashAssignState : ScheduleState :=
  ⟨[("tA", ⟨"tA", "Ann", "a@u", 10, ["C"], []⟩),
    ("tB", ⟨"tB", "Ben", "b@u", 10, ["C"], []⟩)], [],
   [("S1", ⟨"S1", "C", [⟨1, 9, 11⟩], 10, none⟩),
    ("S2", ⟨"S2", "C", [⟨1, 10, 12⟩], 10, none⟩)],
   [("S1", ⟨"S1", some "tA", none⟩), ("S2", ⟨"S2", none, none⟩)], []⟩

/-- The same state with `S2` assigned to `tB`, so that swapping it onto `tA`
creates the time clash. -/
def clashSwapState : ScheduleState :=
  ⟨[("tA", ⟨"tA", "Ann", "a@u", 10, ["C"], []⟩),
    ("tB", ⟨"tB", "Ben", "b@u", 10, ["C"], []⟩)], [],
   [("S1", ⟨"S1", "C", [⟨1, 9, 11⟩], 10, none⟩),
    ("S2", ⟨"S2", "C", [⟨1, 10, 12⟩], 10, none⟩)],
   [("S1", ⟨"S1", some "tA", none⟩), ("S2", ⟨"S2", some "tB", none⟩)], []⟩

/-- C8: neither `core_assign_section` nor `try_swap` performs a time-conflict
check — on the concrete states above, assigning (resp. swapping in) a section
whose timeslot overlaps a timeslot of a section already assigned to the same
teacher succeeds, and `find_conflicting_assignments` flags the resulting
state as conflicting. -/
theorem c8_no_time_conflict_check :
    (∃ m nl s', core_assign_section clashAssignState "S2" "tA" = some (.ok m nl, s') ∧
      find_conflicting_assignments s' = [("tA", "S2")]) ∧
    (∃ s', try_swap clashSwapState "S2" "tB" "tA" = some ((true, "Swap successful"), s') ∧
      find_conflicting_assignments s' = [("tA", "S2")]) := by
  constructor
  · exact ⟨_, _, _, rfl, by decide⟩
  · exact ⟨_, rfl, by decide⟩

/-! Claim C7: `optimal_rebalance` on empty sections or teachers is a no-op. -/

theorem greedy_step_of_none {s : ScheduleState} {loads : List (String × Rat)}
    {p : String × Assignment} (h : p.2.teacher_id = none) :
    greedy_step s loads p = (p.2, loads, []) := by
  simp [greedy_step, h]

theorem greedy_go_of_all_none (s : ScheduleState) (loads : List (String × Rat))
    (l : List (String × Assignment)) (h : ∀ p ∈ l, p.2.teacher_id = none) :
    greedy_go s loads l = (loads, l, []) := by
  induction l with
  | nil => rfl
  | cons p rest ih =>
    have hp := h p (List.mem_cons_self p rest)
    have hrest := ih (fun q hq => h q (List.mem_cons_of_mem p hq))
    simp [greedy_go, greedy_step_of_none hp, hrest]

theorem greedy_rebalance_of_all_none {s : ScheduleState} (o : Option Rat)
    (h : ∀ p ∈ s.assignments, p.2.teacher_id = none) :
    greedy_rebalance s o = s := by
  unfold greedy_rebalance
  dsimp only []
  rw [greedy_go_of_all_none s _ s.assignments h]
  simp

/-- The no-move fact behind the empty edge cases: with no assigned teacher,
the greedy pass changes nothing, regardless of the fallback log entry
already appended to the state it is run on. -/
theorem empty_state_no_teacher {s : ScheduleState} (h : isWF s = true)
    (he : s.sections = [] ∨ s.teachers = []) :
    ∀ p ∈ s.assignments, p.2.teacher_id = none := by
  obtain ⟨_, _, _, _, _, h6⟩ := isWF_parts h
  intro p hp
  rcases he with he | he
  · have := (h6 p hp).2.1
    rw [he] at this
    simp [alookup] at this
  · rcases hte : p.2.teacher_id with _ | tid
    · rfl
    · have := ((h6 p hp).2.2 tid hte).2
      rw [he] at this
      simp [alookup] at this

/-- An entirely empty schedule state. -/
def emptyState : ScheduleState := ⟨[], [], [], [], []⟩

/-- Counterexample to C7 as stated: with `pywraplp` unavailable,
`optimal_rebalance` on the empty state logs the fallback message to the live
state before running the greedy pass on it (schedule_state.py lines
316–318), so the returned state is not the input state — its timeline grew
by one entry. -/
theorem c7_counterexample :
    optimal_rebalance false true none none emptyState =
      emptyState.log "OR-Tools not available, falling back to greedy rebalancing" ∧
    optimal_rebalance false true none none emptyState ≠ emptyState := by
  exact ⟨by decide, by decide⟩

/-- C7 amended: on a well-formed state with empty sections or empty
teachers, `optimal_rebalance` with the solver available returns the state
unchanged (no assignment modified, no timeline entry, no error) whatever the
solver outcome and override; when the `pywraplp` import or the solver
creation fails, the returned state is the input state with exactly that
probe's fallback log entry appended — the greedy fallback itself changes
nothing; on every path the assignments map is returned unchanged. -/
theorem c7_amended (s : ScheduleState) (h : isWF s = true)
    (he : s.sections = [] ∨ s.teachers = []) :
    (∀ solve o, optimal_rebalance true true solve o s = s) ∧
    (∀ created solve o, optimal_rebalance false created solve o s =
      s.log "OR-Tools not available, falling back to greedy rebalancing") ∧
    (∀ solve o, optimal_rebalance true false solve o s =
      s.log "OR-Tools solver not available, falling back to greedy rebalancing") ∧
    (∀ pyavail created solve o,
      (optimal_rebalance pyavail created solve o s).assignments = s.assignments) := by
  have hnone : ∀ p ∈ s.assignments, p.2.teacher_id = none := empty_state_no_teacher h he
  have hempty : (s.sections.isEmpty || s.teachers.isEmpty) = true := by
    rcases he with he | he <;> simp [he]
  have h1 : ∀ solve o, optimal_rebalance true true solve o s = s := by
    intro solve o
    simp [optimal_rebalance, hempty]
  have h2 : ∀ created solve o, optimal_rebalance false created solve o s =
      s.log "OR-Tools not available, falling back to greedy rebalancing" := by
    intro created solve o
    simpa [optimal_rebalance] using
      greedy_rebalance_of_all_none (s :=
        s.log "OR-Tools not available, falling back to greedy rebalancing") o hnone
  have h3 : ∀ solve o, optimal_rebalance true false solve o s =
      s.log "OR-Tools solver not available, falling back to greedy rebalancing" := by
    intro solve o
    simpa [optimal_rebalance] using
      greedy_rebalance_of_all_none (s :=
        s.log "OR-Tools solver not available, falling back to greedy rebalancing") o hnone
  refine ⟨h1, h2, h3, ?_⟩
  intro pyavail created solve o
  cases pyavail
  · rw [h2 created solve o]
    rfl
  · cases created
    · rw [h3 solve o]
      rfl
    · rw [h1 solve o]

/-- Witness for C7 amended on the concrete empty state: the solver-available
paths return it unchanged, each probe-failure path appends exactly its
fallback entry, and the assignments map never changes. -/
theorem c7_witness :
    isWF emptyState = true ∧
    optimal_rebalance true true none none emptyState = emptyState ∧
    optimal_rebalance true true (some (fun _ => some "x")) (some 5) emptyState = emptyState ∧
    optimal_rebalance false true none (some 5) emptyState =
      emptyState.log "OR-Tools not available, falling back to greedy rebalancing" ∧
    optimal_rebalance true false none none emptyState =
      emptyState.log "OR-Tools solver not available, falling back to greedy rebalancing" ∧
    (optimal_rebalance false false none none emptyState).assignments =
      emptyState.assignments := by
  refine ⟨by decide, ?_, ?_, ?_, ?_, ?_⟩
  · exact (c7_amended emptyState (by decide) (Or.inl rfl)).1 none none
  · exact (c7_amended emptyState (by decide) (Or.inl rfl)).1 (some (fun _ => some "x")) (some 5)
  · exact (c7_amended emptyState (by decide) (Or.inl rfl)).2.1 true none (some 5)
  · exact (c7_amended emptyState (by decide) (Or.inl rfl)).2.2.1 none none
  · exact (c7_amended emptyState (by decide) (Or.inl rfl)).2.2.2 false false none none

/-! Claim C3: the order of the `try_swap` precondition checks. -/

/-- A state where the target teacher of a swap is both unqualified and would
be overloaded: `tB` has `max_load_hours = 1`, no qualifications, and the
10-hour section `S` is assigned to `tA`. -/
def swapOrderState : ScheduleState :=
  ⟨[("tA", ⟨"tA", "Amy", "a@u", 12, ["C1"], []⟩),
    ("tB", ⟨"tB", "Bea", "b@u", 1, [], []⟩)], [],
   [("S", ⟨"S", "C1", [⟨1, 9, 19⟩], 10, none⟩)],
   [("S", ⟨"S", some "tA", none⟩)], []⟩

/-- Counterexample to C3 as stated: `tB` is not qualified for `C1`, yet
`try_swap` returns the overload message, not the not-qualified message —
the code checks the overload bound before qualification. -/
theorem c3_counterexample :
    "C1" ∉ (⟨"tB", "Bea", "b@u", 1, ([] : List String), []⟩ : Teacher).qualified_courses ∧
    try_swap swapOrderState "S" "tA" "tB" =
      some ((false, "Assignment would overload teacher Bea"), swapOrderState) ∧
    "Assignment would overload teacher Bea" ≠
      "Teacher " ++ "Bea" ++ " is not qualified to teach " ++ "C1" := by
  exact ⟨by decide, by decide, by decide⟩

/-- C3 amended: `try_swap` checks its preconditions in the order — section
exists, `from` teacher exists, `to` teacher exists, current assignment matches
`from_teacher_id`, then the overload bound, and only then qualification.
Consequently, when the target teacher is not qualified and the move would
also exceed the target's load bound, the reason is the overload message;
the not-qualified message is returned exactly when the target is unqualified
and the overload bound passes. -/
theorem c3_amended (s : ScheduleState) (sid ftid ttid : String)
    (a : Assignment) (tt : Teacher) (sec : CourseSection)
    (ha : alookup sid s.assignments = some a)
    (hf : (alookup ftid s.teachers).isSome = true)
    (ht : alookup ttid s.teachers = some tt)
    (hm : a.teacher_id = some ftid)
    (hs : alookup sid s.sections = some sec) :
    (compute_teacher_load s tt + sec.get_credit_hours > tt.max_load_hours →
      try_swap s sid ftid ttid =
        some ((false, "Assignment would overload teacher " ++ tt.name), s)) ∧
    (compute_teacher_load s tt + sec.get_credit_hours ≤ tt.max_load_hours →
      sec.course_code ∉ tt.qualified_courses →
      try_swap s sid ftid ttid =
        some ((false, "Teacher " ++ tt.name ++ " is not qualified to teach "
          ++ sec.course_code), s)) := by
  rcases Option.isSome_iff_exists.mp hf with ⟨ft, hft⟩
  constructor
  · intro hover
    simp [try_swap, ha, hft, ht, hm, hs, hover]
  · intro hle hnq
    simp [try_swap, ha, hft, ht, hm, hs, not_lt.mpr hle, hnq]

/-- The variant of `swapOrderState` whose target teacher has room to spare,
so only the qualification check fails. -/
def swapOrderState2 : ScheduleState :=
  ⟨[("tA", ⟨"tA", "Amy", "a@u", 12, ["C1"], []⟩),
    ("tB", ⟨"tB", "Bea", "b@u", 30, [], []⟩)], [],
   [("S", ⟨"S", "C1", [⟨1, 9, 19⟩], 10, none⟩)],
   [("S", ⟨"S", some "tA", none⟩)], []⟩

/-- Witness for C3 amended: on the concrete states, the overload reason wins
when both checks fail, and the not-qualified reason appears when only
qualification fails. -/
theorem c3_witness :
    try_swap swapOrderState "S" "tA" "tB" =
      some ((false, "Assignment would overload teacher " ++ "Bea"), swapOrderState) ∧
    try_swap swapOrderState2 "S" "tA" "tB" =
      some ((false, "Teacher " ++ "Bea" ++ " is not qualified to teach "
        ++ "C1"), swapOrderState2) := by
  constructor
  · exact (c3_amended swapOrderState "S" "tA" "tB" ⟨"S", some "tA", none⟩
      ⟨"tB", "Bea", "b@u", 1, [], []⟩ ⟨"S", "C1", [⟨1, 9, 19⟩], 10, none⟩
      (by decide) (by decide) (by decide) rfl (by decide)).1 (by decide)
  · exact (c3_amended swapOrderState2 "S" "tA" "tB" ⟨"S", some "tA", none⟩
      ⟨"tB", "Bea", "b@u", 30, [], []⟩ ⟨"S", "C1", [⟨1, 9, 19⟩], 10, none⟩
      (by decide) (by decide) (by decide) rfl (by decide)).2 (by decide) (by decide)

/-! Machinery for the rebalancing claims C1 and C2: the `teacher_loads`
tracker of the greedy pass mirrors the true loads, each move respects the
target's cap, and moves only transfer hours. -/

/-- Reading the `teacher_loads` tracker (`teacher_loads[tid]`). -/
def loadOf (loads : List (String × Rat)) (tid : String) : Rat :=
  (alookup tid loads).getD 0

/-- The hours of a section id (`0` for a missing section, which Python would
reject with `KeyError`; well-formed states have the key). -/
def hoursOf (sections : List (String × CourseSection)) (sid : String) : Rat :=
  match alookup sid sections with
  | some sec => sec.get_credit_hours
  | none => 0

/-- The contribution of a single assignment record to a teacher's load. -/
def entry_hours (sections : List (String × CourseSection))
    (p : String × Assignment) (tid : String) : Rat :=
  if p.2.teacher_id = some tid then hoursOf sections p.2.section_id else 0

theorem loadIn_eq_sum_entry (sections : List (String × CourseSection))
    (l : List (String × Assignment)) (tid : String) :
    loadIn sections l tid = (l.map (fun p => entry_hours sections p tid)).sum := rfl

theorem loadIn_cons (sections : List (String × CourseSection))
    (p : String × Assignment) (l : List (String × Assignment)) (tid : String) :
    loadIn sections (p :: l) tid = entry_hours sections p tid + loadIn sections l tid := by
  simp [loadIn_eq_sum_entry]

theorem alookup_isSome_of_mem {l : List (String × α)} {k : String} {v : α}
    (h : (k, v) ∈ l) : (alookup k l).isSome = true := by
  induction l with
  | nil => simp at h
  | cons p rest ih =>
    rcases List.mem_cons.mp h with h | h
    · rw [← h, alookup, if_pos rfl]
      rfl
    · rw [alookup]
      split
      · rfl
      · exact ih h

theorem alookup_isSome_iff_mem_keys {l : List (String × α)} {k : String} :
    (alookup k l).isSome = true ↔ k ∈ l.map Prod.fst := by
  constructor
  · intro h
    rcases Option.isSome_iff_exists.mp h with ⟨v, hv⟩
    exact List.mem_map.mpr ⟨(k, v), alookup_eq_some_mem hv, rfl⟩
  · intro h
    rcases List.mem_map.mp h with ⟨p, hp, hk⟩
    subst hk
    exact alookup_isSome_of_mem (by exact hp)

/-- What a successful candidate search guarantees (given a `(none, _)`
starting accumulator): the returned teacher is another, qualified teacher of
the map whose tracked load leaves room under its own cap and differs by more
than the slack `2`. -/
theorem pick_best_go_spec (cur course : String) (sh cl : Rat)
    (loads : List (String × Rat)) (ts : List (String × Teacher))
    (acc : Option String × Rat) (b : String) (d : Rat)
    (h : pick_best_go cur course sh cl loads ts acc = (some b, d)) :
    (some b, d) = acc ∨
    ∃ t, (b, t) ∈ ts ∧ b ≠ cur ∧ course ∈ t.qualified_courses ∧
      loadOf loads b + sh ≤ t.max_load_hours ∧ cl - loadOf loads b > 2 := by
  induction ts generalizing acc with
  | nil =>
    left
    exact h.symm
  | cons p rest ih =>
    rw [pick_best_go] at h
    dsimp only [] at h
    split at h
    · rename_i hcond
      split at h
      · rename_i hcond2
        split at h
        · rcases ih _ h with heq | ⟨t, hmem, hprop⟩
          · right
            have hb : b = p.1 := by
              have := congrArg Prod.fst heq
              simpa using this
            refine ⟨p.2, ?_, ?_, hcond.2, ?_, ?_⟩
            · rw [hb]
              exact List.mem_cons_self p rest
            · rw [hb]
              exact hcond.1
            · rw [hb]
              exact hcond2.1
            · rw [hb]
              exact hcond2.2
          · exact Or.inr ⟨t, List.mem_cons_of_mem p hmem, hprop⟩
        · rcases ih _ h with heq | ⟨t, hmem, hprop⟩
          · exact Or.inl heq
          · exact Or.inr ⟨t, List.mem_cons_of_mem p hmem, hprop⟩
      · rcases ih _ h with heq | ⟨t, hmem, hprop⟩
        · exact Or.inl heq
        · exact Or.inr ⟨t, List.mem_cons_of_mem p hmem, hprop⟩
    · rcases ih _ h with heq | ⟨t, hmem, hprop⟩
      · exact Or.inl heq
      · exact Or.inr ⟨t, List.mem_cons_of_mem p hmem, hprop⟩

/-- The cap used by the bound lemma: the teacher's own `max_load_hours`. -/
def capOf (s : ScheduleState) (tid : String) : Rat :=
  ((alookup tid s.teachers).map Teacher.max_load_hours).getD 0

/-- A single greedy iteration either leaves everything untouched, or performs
one move whose target was produced by the candidate search: another qualified
teacher with room under its own cap and a tracked-load gap above the slack. -/
theorem greedy_step_cases (s : ScheduleState) (loads : List (String × Rat))
    (p : String × Assignment) (r : Assignment × List (String × Rat) × List String)
    (hr : greedy_step s loads p = r) :
    r = (p.2, loads, []) ∨
    ∃ cur ct sec best t msgs,
      p.2.teacher_id = some cur ∧
      alookup cur s.teachers = some ct ∧
      alookup p.2.section_id s.sections = some sec ∧
      (best, t) ∈ s.teachers ∧ best ≠ cur ∧
      sec.course_code ∈ t.qualified_courses ∧
      loadOf loads best + sec.get_credit_hours ≤ t.max_load_hours ∧
      loadOf loads cur - loadOf loads best > 2 ∧
      r = ({ p.2 with teacher_id := some best },
        aupdate best (fun x => x + sec.get_credit_hours)
          (aupdate ct.id (fun x => x - sec.get_credit_hours) loads),
        msgs) := by
  unfold greedy_step at hr
  dsimp only [] at hr
  split at hr
  · exact Or.inl hr.symm
  · rename_i cur hte
    split at hr
    · exact Or.inl hr.symm
    · split at hr
      · rename_i ct sec hct hsec
        split at hr
        · rename_i best d hpick
          split at hr
          · exact Or.inl hr.symm
          · rename_i hbne
            rcases pick_best_go_spec cur sec.course_code sec.get_credit_hours
                ((alookup cur loads).getD 0) loads s.teachers (none, 0) best d hpick with
              hacc | ⟨t, hmem, hnecur, hq, hcap, hslack⟩
            · exact absurd (congrArg Prod.fst hacc) (by simp)
            · right
              exact ⟨cur, ct, sec, best, t, _, hte, hct, hsec, hmem, hnecur, hq,
                hcap, hslack, hr.symm⟩
        · exact Or.inl hr.symm
      · exact Or.inl hr.symm

theorem greedy_step_loads_keys (s : ScheduleState) (loads : List (String × Rat))
    (p : String × Assignment) (k : String) :
    (alookup k (greedy_step s loads p).2.1).isSome = (alookup k loads).isSome := by
  rcases greedy_step_cases s loads p _ rfl with hid |
    ⟨_, _, _, _, _, _, _, _, _, _, _, _, _, _, hstep⟩
  · rw [hid]
  · rw [hstep]
    simp only [alookup_isSome_aupdate]

theorem greedy_step_accounting (s : ScheduleState)
    (hids : ∀ q ∈ s.teachers, q.2.id = q.1)
    (loads : List (String × Rat)) (p : String × Assignment) (tid : String)
    (hkeys : ∀ k, (alookup k loads).isSome = (alookup k s.teachers).isSome) :
    loadOf (greedy_step s loads p).2.1 tid + entry_hours s.sections p tid =
      loadOf loads tid + entry_hours s.sections (p.1, (greedy_step s loads p).1) tid := by
  rcases greedy_step_cases s loads p _ rfl with hid |
    ⟨cur, ct, sec, best, t, msgs, hte, hct, hsec, hmem, hnecur, _, _, _, hstep⟩
  · rw [hid]
  · rw [hstep]
    have hctid : ct.id = cur := hids (cur, ct) (alookup_eq_some_mem hct)
    have hcur_mem : (alookup cur loads).isSome = true := by
      rw [hkeys cur, hct]
      rfl
    have hbest_mem : (alookup best loads).isSome = true := by
      rw [hkeys best]
      exact alookup_isSome_of_mem hmem
    rcases Option.isSome_iff_exists.mp hcur_mem with ⟨x, hx⟩
    rcases Option.isSome_iff_exists.mp hbest_mem with ⟨y, hy⟩
    have hhours : hoursOf s.sections p.2.section_id = sec.get_credit_hours := by
      unfold hoursOf
      rw [hsec]
    by_cases h1 : tid = cur
    · subst h1
      have hl : loadOf (aupdate best (fun x => x + sec.get_credit_hours)
          (aupdate ct.id (fun x => x - sec.get_credit_hours) loads)) tid = x - sec.get_credit_hours := by
        unfold loadOf
        rw [alookup_aupdate, if_neg (fun hc => hnecur hc), alookup_aupdate, hctid,
          if_pos rfl, hx]
        rfl
      rw [hl]
      simp only [entry_hours, hte, hhours, Option.some.injEq]
      rw [if_pos trivial, if_neg hnecur]
      unfold loadOf
      rw [hx]
      simp only [Option.getD_some]
      ring
    · by_cases h2 : tid = best
      · subst h2
        have hl : loadOf (aupdate tid (fun x => x + sec.get_credit_hours)
            (aupdate ct.id (fun x => x - sec.get_credit_hours) loads)) tid
              = y + sec.get_credit_hours := by
          unfold loadOf
          rw [alookup_aupdate, if_pos rfl, alookup_aupdate, hctid,
            if_neg (fun hc => h1 hc.symm), hy]
          rfl
        rw [hl]
        simp only [entry_hours, hte, hhours, Option.some.injEq]
        rw [if_neg (fun hc => h1 hc.symm), if_pos trivial]
        unfold loadOf
        rw [hy]
        simp only [Option.getD_some]
        ring
      · have hl : loadOf (aupdate best (fun x => x + sec.get_credit_hours)
            (aupdate ct.id (fun x => x - sec.get_credit_hours) loads)) tid = loadOf loads tid := by
          unfold loadOf
          rw [alookup_aupdate, if_neg (fun hc => h2 hc.symm), alookup_aupdate, hctid,
            if_neg (fun hc => h1 hc.symm)]
        rw [hl]
        simp only [entry_hours, hte, Option.some.injEq]
        rw [if_neg (fun hc => h1 hc.symm), if_neg (fun hc => h2 hc.symm)]

theorem greedy_step_bound (s : ScheduleState)
    (hids : ∀ q ∈ s.teachers, q.2.id = q.1)
    (hnd : (s.teachers.map Prod.fst).Nodup)
    (hhours : ∀ q ∈ s.sections, 0 ≤ q.2.get_credit_hours)
    (loads : List (String × Rat)) (p : String × Assignment) (tid : String) :
    loadOf (greedy_step s loads p).2.1 tid ≤ max (loadOf loads tid) (capOf s tid) := by
  rcases greedy_step_cases s loads p _ rfl with hid |
    ⟨cur, ct, sec, best, t, msgs, hte, hct, hsec, hmem, hnecur, hq, hcap, hslack, hstep⟩
  · rw [hid]
    exact le_max_left _ _
  · rw [hstep]
    have hsecnn : 0 ≤ sec.get_credit_hours :=
      hhours (p.2.section_id, sec) (alookup_eq_some_mem hsec)
    have hcur : ct.id = cur := hids (cur, ct) (alookup_eq_some_mem hct)
    by_cases h2 : tid = best
    · subst h2
      have hcid : ct.id ≠ tid := by
        rw [hcur]
        exact fun hc => hnecur hc.symm
      have hlt : alookup tid s.teachers = some t := alookup_of_mem_nodup hmem hnd
      have hcapv : capOf s tid = t.max_load_hours := by
        unfold capOf
        rw [hlt]
        rfl
      have hl : loadOf (aupdate tid (fun x => x + sec.get_credit_hours)
          (aupdate ct.id (fun x => x - sec.get_credit_hours) loads)) tid ≤ t.max_load_hours := by
        unfold loadOf
        rw [alookup_aupdate, if_pos rfl, alookup_aupdate, if_neg hcid]
        unfold loadOf at hcap
        rcases he : alookup tid loads with _ | v
        · rw [he] at hcap
          show (0 : Rat) ≤ t.max_load_hours
          simp only [Option.getD_none] at hcap
          linarith
        · rw [he] at hcap
          show v + sec.get_credit_hours ≤ t.max_load_hours
          simp only [Option.getD_some] at hcap
          linarith
      calc _ ≤ t.max_load_hours := hl
      _ = capOf s tid := hcapv.symm
      _ ≤ max (loadOf loads tid) (capOf s tid) := le_max_right _ _
    · have hl : loadOf (aupdate best (fun x => x + sec.get_credit_hours)
          (aupdate ct.id (fun x => x - sec.get_credit_hours) loads)) tid ≤ loadOf loads tid := by
        unfold loadOf
        rw [alookup_aupdate, if_neg (fun hc => h2 hc.symm), alookup_aupdate]
        by_cases hcid : ct.id = tid
        · rw [if_pos hcid]
          rcases he : alookup tid loads with _ | v
          · exact le_refl _
          · show v - sec.get_credit_hours ≤ (some v).getD 0
            simp only [Option.getD_some]
            linarith
        · rw [if_neg hcid]
      exact le_trans hl (le_max_left _ _)

/-- The hours an assignment contributes to the teachers' total: counted when
its teacher id is a key of the teachers map. -/
def countedIn (T : List (String × Teacher)) (sections : List (String × CourseSection))
    (p : String × Assignment) : Rat :=
  match p.2.teacher_id with
  | some tid => if (alookup tid T).isSome then hoursOf sections p.2.section_id else 0
  | none => 0

theorem greedy_step_counted (s : ScheduleState) (loads : List (String × Rat))
    (p : String × Assignment) :
    countedIn s.teachers s.sections (p.1, (greedy_step s loads p).1) =
      countedIn s.teachers s.sections p := by
  rcases greedy_step_cases s loads p _ rfl with hid |
    ⟨cur, ct, sec, best, t, msgs, hte, hct, hsec, hmem, hnecur, hq, hcap, hslack, hstep⟩
  · rw [hid]
  · rw [hstep]
    show countedIn s.teachers s.sections (p.1, { p.2 with teacher_id := some best }) = _
    unfold countedIn
    simp only [hte]
    rw [if_pos (alookup_isSome_of_mem hmem), if_pos (by rw [hct]; rfl)]

theorem greedy_go_loads_keys (s : ScheduleState) (l : List (String × Assignment))
    (loads : List (String × Rat)) (k : String) :
    (alookup k (greedy_go s loads l).1).isSome = (alookup k loads).isSome := by
  induction l generalizing loads with
  | nil => rfl
  | cons p rest ih =>
    show (alookup k (greedy_go s (greedy_step s loads p).2.1 rest).1).isSome = _
    rw [ih, greedy_step_loads_keys]

theorem greedy_go_accounting (s : ScheduleState)
    (hids : ∀ q ∈ s.teachers, q.2.id = q.1)
    (l : List (String × Assignment)) (loads : List (String × Rat)) (tid : String)
    (hkeys : ∀ k, (alookup k loads).isSome = (alookup k s.teachers).isSome) :
    loadOf (greedy_go s loads l).1 tid + loadIn s.sections l tid =
      loadOf loads tid + loadIn s.sections (greedy_go s loads l).2.1 tid := by
  induction l generalizing loads with
  | nil => rfl
  | cons p rest ih =>
    have hkeys' : ∀ k, (alookup k (greedy_step s loads p).2.1).isSome =
        (alookup k s.teachers).isSome := by
      intro k
      rw [greedy_step_loads_keys, hkeys]
    have hstep := greedy_step_accounting s hids loads p tid hkeys
    have hih := ih (greedy_step s loads p).2.1 hkeys'
    show loadOf (greedy_go s (greedy_step s loads p).2.1 rest).1 tid +
        loadIn s.sections (p :: rest) tid =
      loadOf loads tid +
        loadIn s.sections ((p.1, (greedy_step s loads p).1) ::
          (greedy_go s (greedy_step s loads p).2.1 rest).2.1) tid
    rw [loadIn_cons, loadIn_cons]
    have he : entry_hours s.sections (p.1, (greedy_step s loads p).1) tid =
        entry_hours s.sections (p.1, (greedy_step s loads p).1) tid := rfl
    linarith [hstep, hih]

theorem greedy_go_bound (s : ScheduleState)
    (hids : ∀ q ∈ s.teachers, q.2.id = q.1)
    (hnd : (s.teachers.map Prod.fst).Nodup)
    (hhours : ∀ q ∈ s.sections, 0 ≤ q.2.get_credit_hours)
    (l : List (String × Assignment)) (loads : List (String × Rat)) (tid : String) :
    loadOf (greedy_go s loads l).1 tid ≤ max (loadOf loads tid) (capOf s tid) := by
  induction l generalizing loads with
  | nil => exact le_max_left _ _
  | cons p rest ih =>
    show loadOf (greedy_go s (greedy_step s loads p).2.1 rest).1 tid ≤ _
    calc loadOf (greedy_go s (greedy_step s loads p).2.1 rest).1 tid
        ≤ max (loadOf (greedy_step s loads p).2.1 tid) (capOf s tid) := ih _
      _ ≤ max (max (loadOf loads tid) (capOf s tid)) (capOf s tid) := by
          apply max_le_max_right
          exact greedy_step_bound s hids hnd hhours loads p tid
      _ = max (loadOf loads tid) (capOf s tid) := by
          rw [max_assoc, max_self]

theorem greedy_go_counted_sum (s : ScheduleState) (l : List (String × Assignment))
    (loads : List (String × Rat)) :
    ((greedy_go s loads l).2.1.map (countedIn s.teachers s.sections)).sum =
      (l.map (countedIn s.teachers s.sections)).sum := by
  induction l generalizing loads with
  | nil => rfl
  | cons p rest ih =>
    show ((( p.1, (greedy_step s loads p).1) ::
        (greedy_go s (greedy_step s loads p).2.1 rest).2.1).map
          (countedIn s.teachers s.sections)).sum = _
    simp only [List.map_cons, List.sum_cons]
    rw [greedy_step_counted, ih]

theorem sum_map_add (l : List α) (f g : α → Rat) :
    (l.map (fun x => f x + g x)).sum = (l.map f).sum + (l.map g).sum := by
  induction l with
  | nil => simp
  | cons a rest ih =>
    simp only [List.map_cons, List.sum_cons, ih]
    ring

theorem alookup_map_keep_keys (g : String × α → β) (l : List (String × α)) (k : String) :
    (alookup k (l.map (fun p => (p.1, g p)))).isSome = (alookup k l).isSome := by
  induction l with
  | nil => rfl
  | cons p rest ih =>
    show (if p.1 = k then some (g p) else alookup k (rest.map _)).isSome = _
    rw [alookup]
    split <;> simp_all

/-- Summing each teacher's per-assignment contribution over a teachers map
with unique, id-consistent keys collapses to the assignment's counted hours. -/
theorem sum_entry_hours_eq_counted (T : List (String × Teacher))
    (sections : List (String × CourseSection)) (q : String × Assignment)
    (hids : ∀ p ∈ T, p.2.id = p.1) (hnd : (T.map Prod.fst).Nodup) :
    (T.map (fun p => entry_hours sections q p.2.id)).sum = countedIn T sections q := by
  rcases hte : q.2.teacher_id with _ | tid
  · have hz : ∀ p ∈ T, entry_hours sections q p.2.id = 0 := by
      intro p _
      unfold entry_hours
      rw [hte]
      simp
    rw [List.map_congr_left hz]
    simp [countedIn, hte]
  · induction T with
    | nil => simp [countedIn, hte, alookup]
    | cons p0 rest ih =>
      have hid0 : p0.2.id = p0.1 := hids p0 (List.mem_cons_self p0 rest)
      simp only [List.map_cons, List.sum_cons]
      simp only [List.map_cons, List.nodup_cons] at hnd
      have hcons : alookup tid (p0 :: rest) =
          if p0.1 = tid then some p0.2 else alookup tid rest := rfl
      by_cases h0 : tid = p0.1
      · have hz : ∀ p ∈ rest, entry_hours sections q p.2.id = 0 := by
          intro p hp
          unfold entry_hours
          rw [hte, hids p (List.mem_cons_of_mem p0 hp)]
          have hne : p.1 ≠ tid := by
            intro hc
            exact hnd.1 (h0 ▸ hc ▸ List.mem_map.mpr ⟨p, hp, rfl⟩)
          rw [if_neg (by simpa using fun hc => hne hc.symm)]
        rw [List.map_congr_left hz]
        have hk : alookup tid (p0 :: rest) = some p0.2 := by
          rw [hcons, if_pos h0.symm]
        have hk2 : alookup p0.1 (p0 :: rest) = some p0.2 := by
          have hc2 : alookup p0.1 (p0 :: rest) =
              if p0.1 = p0.1 then some p0.2 else alookup p0.1 rest := rfl
          rw [hc2, if_pos rfl]
        simp [entry_hours, countedIn, hte, hid0, h0, hk, hk2]
      · have hstep := ih (fun p hp => hids p (List.mem_cons_of_mem p0 hp)) hnd.2
        have hk : alookup tid (p0 :: rest) = alookup tid rest := by
          rw [hcons, if_neg (fun hc => h0 hc.symm)]
        have hhead : entry_hours sections q p0.2.id = 0 := by
          unfold entry_hours
          rw [hte, hid0, if_neg (by simpa using h0)]
        rw [hhead, hstep]
        simp [countedIn, hte, hk]

/-- The spec's total — the sum of every teacher's computed load — equals the
sum of the counted hours over the assignments map. -/
theorem sum_load_eq_sum_counted (T : List (String × Teacher))
    (sections : List (String × CourseSection)) (A : List (String × Assignment))
    (hids : ∀ p ∈ T, p.2.id = p.1) (hnd : (T.map Prod.fst).Nodup) :
    (T.map (fun p => loadIn sections A p.2.id)).sum =
      (A.map (countedIn T sections)).sum := by
  induction A with
  | nil =>
    have : ∀ p ∈ T, loadIn sections [] p.2.id = 0 := by
      intro p _
      rfl
    rw [List.map_congr_left this]
    simp
  | cons q A ih =>
    have : ∀ p ∈ T, loadIn sections (q :: A) p.2.id =
        entry_hours sections q p.2.id + loadIn sections A p.2.id := by
      intro p _
      exact loadIn_cons sections q A p.2.id
    rw [List.map_congr_left this, sum_map_add, ih,
      sum_entry_hours_eq_counted T sections q hids hnd]
    simp

/-- After a greedy rebalance on a well-formed state, every teacher's load is
bounded by the larger of their pre-call load and their own cap: each move
keeps its target under the target's `max_load_hours`, and a teacher that
receives nothing can only lose hours. -/
theorem greedy_load_le (s : ScheduleState) (o : Option Rat) (h : isWF s = true)
    {tid : String} {t : Teacher} (hmem : (tid, t) ∈ s.teachers) :
    compute_teacher_load (greedy_rebalance s o) t ≤
      max (compute_teacher_load s t) t.max_load_hours := by
  obtain ⟨hnd, _, _, h4, h5, _⟩ := isWF_parts h
  have hids : ∀ q ∈ s.teachers, q.2.id = q.1 := fun q hq => (h4 q hq).1
  have hhours : ∀ q ∈ s.sections, 0 ≤ q.2.get_credit_hours :=
    fun q hq => section_hours_nonneg (h5 q hq).2
  have htid : t.id = tid := hids (tid, t) hmem
  have hlook : alookup tid s.teachers = some t := alookup_of_mem_nodup hmem hnd
  have hinitlook : alookup tid (s.teachers.map (fun q => (q.1, compute_teacher_load s q.2)))
      = some (compute_teacher_load s t) := alookup_mapSnd _ hmem hnd
  have hkeys : ∀ k, (alookup k (s.teachers.map (fun q => (q.1, compute_teacher_load s q.2)))).isSome
      = (alookup k s.teachers).isSome :=
    fun k => alookup_map_keep_keys _ s.teachers k
  have hacc := greedy_go_accounting s hids s.assignments
    (s.teachers.map (fun q => (q.1, compute_teacher_load s q.2))) tid hkeys
  have hbnd := greedy_go_bound s hids hnd hhours s.assignments
    (s.teachers.map (fun q => (q.1, compute_teacher_load s q.2))) tid
  have hinitload : loadOf (s.teachers.map (fun q => (q.1, compute_teacher_load s q.2))) tid
      = compute_teacher_load s t := by
    unfold loadOf
    rw [hinitlook]
    rfl
  have hloadin : loadIn s.sections s.assignments tid = compute_teacher_load s t := by
    unfold compute_teacher_load
    rw [htid]
  have hcapv : capOf s tid = t.max_load_hours := by
    unfold capOf
    rw [hlook]
    rfl
  have hres : compute_teacher_load (greedy_rebalance s o) t =
      loadIn s.sections (greedy_go s
        (s.teachers.map (fun q => (q.1, compute_teacher_load s q.2))) s.assignments).2.1 tid := by
    rw [← htid]
    rfl
  rw [hres]
  have heq : loadIn s.sections (greedy_go s
      (s.teachers.map (fun q => (q.1, compute_teacher_load s q.2))) s.assignments).2.1 tid =
      loadOf (greedy_go s
        (s.teachers.map (fun q => (q.1, compute_teacher_load s q.2))) s.assignments).1 tid := by
    linarith [hacc, hinitload, hloadin]
  rw [heq]
  calc loadOf (greedy_go s
        (s.teachers.map (fun q => (q.1, compute_teacher_load s q.2))) s.assignments).1 tid
      ≤ max (loadOf (s.teachers.map (fun q => (q.1, compute_teacher_load s q.2))) tid)
          (capOf s tid) := hbnd
    _ = max (compute_teacher_load s t) t.max_load_hours := by rw [hinitload, hcapv]

/-- The greedy pass conserves the total of the teachers' computed loads:
every move subtracts a section's hours from one teacher of the map and adds
the same hours to another. -/
theorem greedy_total_conserved (s : ScheduleState) (o : Option Rat) (h : isWF s = true) :
    total_load (greedy_rebalance s o) = total_load s := by
  obtain ⟨hnd, _, _, h4, _, _⟩ := isWF_parts h
  have hids : ∀ q ∈ s.teachers, q.2.id = q.1 := fun q hq => (h4 q hq).1
  have h1 : total_load (greedy_rebalance s o) =
      (s.teachers.map (fun q => loadIn s.sections
        (greedy_go s (s.teachers.map (fun q2 => (q2.1, compute_teacher_load s q2.2)))
          s.assignments).2.1 q.2.id)).sum := rfl
  rw [h1, sum_load_eq_sum_counted s.teachers s.sections _ hids hnd,
    greedy_go_counted_sum,
    ← sum_load_eq_sum_counted s.teachers s.sections s.assignments hids hnd]
  rfl

/-- The effect of the solution-application loop on one assignment record. -/
def applySol (sol : String → Option String) (sid : String) (b : Assignment) : Assignment :=
  match sol sid with
  | some tid => { b with teacher_id := some tid }
  | none => b

theorem apply_solution_step_fields (s : ScheduleState) (sol : String → Option String)
    (st : ScheduleState) (p : String × CourseSection) :
    (apply_solution_step s sol st p).teachers = st.teachers ∧
    (apply_solution_step s sol st p).sections = st.sections := by
  unfold apply_solution_step
  dsimp only []
  repeat' split
  all_goals simp_all [ScheduleState.log]

theorem apply_solution_step_assignments (s : ScheduleState) (sol : String → Option String)
    (st : ScheduleState) (p : String × CourseSection)
    (hcov : (alookup p.1 st.assignments).isSome = true) :
    (apply_solution_step s sol st p).assignments =
      aupdate p.1 (applySol sol p.1) st.assignments := by
  unfold apply_solution_step
  dsimp only []
  rw [if_pos hcov]
  rcases hsol : sol p.1 with _ | tid
  · show st.assignments = _
    unfold aupdate applySol
    simp only [hsol]
    have hid : ∀ q ∈ st.assignments, (if q.1 = p.1 then (q.1, q.2) else q) = q := by
      intro q _
      split <;> rfl
    rw [List.map_congr_left hid]
    simp
  · rcases ha : alookup p.1 st.assignments with _ | a
    · rw [ha] at hcov
      cases hcov
    · dsimp only []
      split <;>
      · show aupdate p.1 (fun b => { b with teacher_id := some tid }) st.assignments =
          aupdate p.1 (applySol sol p.1) st.assignments
        unfold aupdate applySol
        simp only [hsol]

theorem apply_solution_go_fields (s : ScheduleState) (sol : String → Option String)
    (secs : List (String × CourseSection)) (st : ScheduleState) :
    (secs.foldl (apply_solution_step s sol) st).teachers = st.teachers ∧
    (secs.foldl (apply_solution_step s sol) st).sections = st.sections := by
  induction secs generalizing st with
  | nil => exact ⟨rfl, rfl⟩
  | cons c rest ih =>
    rw [List.foldl_cons]
    rcases ih (apply_solution_step s sol st c) with ⟨ht, hs⟩
    rcases apply_solution_step_fields s sol st c with ⟨ht2, hs2⟩
    exact ⟨ht.trans ht2, hs.trans hs2⟩

theorem apply_solution_go_assignments (s : ScheduleState) (sol : String → Option String)
    (secs : List (String × CourseSection)) (st : ScheduleState)
    (hnd : (secs.map Prod.fst).Nodup)
    (hcov : ∀ q ∈ secs, (alookup q.1 st.assignments).isSome = true) :
    (secs.foldl (apply_solution_step s sol) st).assignments =
      st.assignments.map (fun q =>
        if q.1 ∈ secs.map Prod.fst then (q.1, applySol sol q.1 q.2) else q) := by
  induction secs generalizing st with
  | nil =>
    have hid : ∀ q ∈ st.assignments,
        (if q.1 ∈ (List.map Prod.fst ([] : List (String × CourseSection))) then
          (q.1, applySol sol q.1 q.2) else q) = q := by
      intro q _
      simp
    rw [List.foldl_nil, List.map_congr_left hid]
    simp
  | cons c rest ih =>
    simp only [List.map_cons, List.nodup_cons] at hnd
    rw [List.foldl_cons,
      ih (apply_solution_step s sol st c) hnd.2 (fun q hq => by
        rw [apply_solution_step_assignments s sol st c (hcov c (List.mem_cons_self c rest))]
        rw [alookup_isSome_aupdate]
        exact hcov q (List.mem_cons_of_mem c hq)),
      apply_solution_step_assignments s sol st c (hcov c (List.mem_cons_self c rest))]
    unfold aupdate
    rw [List.map_map]
    apply List.map_congr_left
    intro q _
    have hnotin : ¬ c.1 ∈ rest.map Prod.fst := hnd.1
    by_cases hqc : q.1 = c.1
    · simp [Function.comp, hqc, hnotin]
    · by_cases hqr : q.1 ∈ rest.map Prod.fst
      · simp [Function.comp, hqc, hqr]
      · simp [Function.comp, hqc, hqr]

theorem feasible_parts {s : ScheduleState} {o : Option Rat} {sol : String → Option String}
    (h : feasible_solution s o sol = true) :
    (∀ q ∈ s.sections, ∀ tid, sol q.1 = some tid → tid ∈ qualified_teacher_ids s q.2) ∧
    (∀ q ∈ s.sections, sol q.1 = none → qualified_teacher_ids s q.2 = []) ∧
    (∀ q ∈ s.teachers, solver_load s sol q.1 ≤ effectiveMax o q.2) := by
  simp only [feasible_solution, Bool.and_eq_true, List.all_eq_true] at h
  obtain ⟨hA, hB⟩ := h
  refine ⟨?_, ?_, ?_⟩
  · intro q hq tid htid
    have := hA q hq
    rw [htid] at this
    exact of_decide_eq_true this
  · intro q hq htid
    have := hA q hq
    rw [htid] at this
    exact List.isEmpty_iff.mp this
  · intro q hq
    exact of_decide_eq_true (hB q hq)

theorem qualified_mem {s : ScheduleState} {sec : CourseSection} {tid : String}
    (h : tid ∈ qualified_teacher_ids s sec) :
    ∃ t, (tid, t) ∈ s.teachers ∧ sec.course_code ∈ t.qualified_courses := by
  unfold qualified_teacher_ids at h
  rcases List.mem_map.mp h with ⟨p, hp, rfl⟩
  rcases List.mem_filter.mp hp with ⟨hmem, hcond⟩
  exact ⟨p.2, hmem, of_decide_eq_true hcond⟩

theorem assignment_keys_perm (s : ScheduleState) (h : isWF s = true)
    (hcov : sections_covered s = true) :
    (s.assignments.map Prod.fst).Perm (s.sections.map Prod.fst) := by
  obtain ⟨_, hnds, hnda, _, _, h6⟩ := isWF_parts h
  rw [List.perm_ext_iff_of_nodup hnda hnds]
  intro k
  constructor
  · intro hk
    rcases List.mem_map.mp hk with ⟨q, hq, rfl⟩
    have := (h6 q hq).2.1
    rw [(h6 q hq).1] at this
    exact alookup_isSome_iff_mem_keys.mp this
  · intro hk
    rcases List.mem_map.mp hk with ⟨q, hq, rfl⟩
    simp only [sections_covered, List.all_eq_true] at hcov
    exact alookup_isSome_iff_mem_keys.mp (hcov q hq)

/-- After applying a feasible solution on a well-formed, fully covered state
where every section has a qualified teacher, every teacher's load is the
solver-side load, which Constraint 2 bounds by the effective cap. -/
theorem optimal_load_le (s : ScheduleState) (o : Option Rat)
    (sol : String → Option String) (h : isWF s = true)
    (hfeas : feasible_solution s o sol = true)
    (hcov : sections_covered s = true)
    (hstaff : all_courses_staffable s = true)
    {tid : String} {t : Teacher} (hmem : (tid, t) ∈ s.teachers) :
    compute_teacher_load (optimal_rebalance true true (some sol) o s) t ≤ effectiveMax o t := by
  obtain ⟨hndt, hnds, hnda, h4, h5, h6⟩ := isWF_parts h
  obtain ⟨hA1, hA2, hB⟩ := feasible_parts hfeas
  have htid : t.id = tid := (h4 (tid, t) hmem).1
  have hBt : solver_load s sol tid ≤ effectiveMax o t := hB (tid, t) hmem
  have htne : s.teachers.isEmpty = false := by
    cases hL : s.teachers
    · rw [hL] at hmem
      cases hmem
    · rfl
  rcases hsecL : s.sections with _ | ⟨c, rest⟩
  · -- empty sections: the call returns the state unchanged and the load is 0
    have hempty : s.assignments = [] := by
      cases hAL : s.assignments with
      | nil => rfl
      | cons q qs =>
        have := (h6 q (by rw [hAL]; exact List.mem_cons_self q qs)).2.1
        rw [hsecL] at this
        simp [alookup] at this
    have hres : optimal_rebalance true true (some sol) o s = s := by
      unfold optimal_rebalance
      rw [hsecL]
      simp
    rw [hres]
    have hload : compute_teacher_load s t = 0 := by
      unfold compute_teacher_load loadIn
      rw [hempty]
      rfl
    rw [hload]
    have hsl : solver_load s sol tid = 0 := by
      unfold solver_load
      rw [hsecL]
      rfl
    rw [hsl] at hBt
    exact hBt
  · -- non-empty sections: the solver solution is applied
    have hsne : s.sections.isEmpty = false := by
      rw [hsecL]
      rfl
    have hres : optimal_rebalance true true (some sol) o s = apply_solution s sol := by
      simp [optimal_rebalance, hsne, htne]
    rw [hres]
    have hcov2 : ∀ q ∈ s.sections, (alookup q.1 s.assignments).isSome = true := by
      simp only [sections_covered, List.all_eq_true] at hcov
      exact hcov
    have hA := apply_solution_go_assignments s sol s.sections s hnds hcov2
    have hfields := apply_solution_go_fields s sol s.sections s
    -- the load in the applied state, entry by entry
    have hload : compute_teacher_load (apply_solution s sol) t =
        ((s.assignments.map Prod.fst).map (fun sid =>
          if sol sid = some tid then hoursOf s.sections sid else 0)).sum := by
      unfold compute_teacher_load
      rw [show (apply_solution s sol).sections = s.sections from hfields.2]
      rw [show (apply_solution s sol).assignments =
        s.assignments.map (fun q =>
          if q.1 ∈ s.sections.map Prod.fst then (q.1, applySol sol q.1 q.2) else q) from hA]
      rw [loadIn_eq_sum_entry, List.map_map, List.map_map]
      congr 1
      apply List.map_congr_left
      intro q hq
      have hkey : q.2.section_id = q.1 := (h6 q hq).1
      have hmemsec : q.1 ∈ s.sections.map Prod.fst := by
        have := (h6 q hq).2.1
        rw [hkey] at this
        exact alookup_isSome_iff_mem_keys.mp this
      rcases Option.isSome_iff_exists.mp ((by
        rw [← hkey]
        exact (h6 q hq).2.1) : (alookup q.1 s.sections).isSome = true) with ⟨secq, hsecq⟩
      have hstaffq : qualified_teacher_ids s secq ≠ [] := by
        simp only [all_courses_staffable, List.all_eq_true] at hstaff
        have := hstaff (q.1, secq) (alookup_eq_some_mem hsecq)
        simpa [List.isEmpty_iff] using this
      have hsolq : ∃ x, sol q.1 = some x := by
        rcases hx : sol q.1 with _ | x
        · exact absurd (hA2 (q.1, secq) (alookup_eq_some_mem hsecq) hx) hstaffq
        · exact ⟨x, rfl⟩
      rcases hsolq with ⟨x, hx⟩
      show entry_hours s.sections
        (if q.1 ∈ s.sections.map Prod.fst then (q.1, applySol sol q.1 q.2) else q) (t.id) = _
      rw [if_pos hmemsec, htid]
      unfold entry_hours applySol
      simp only [hx]
      by_cases hxt : x = tid
      · simp [hx, hxt, hkey]
      · simp [hx, hxt, hkey]
    rw [hload]
    -- the same sum over the sections map is the solver load
    have hsolver : solver_load s sol tid =
        ((s.sections.map Prod.fst).map (fun sid =>
          if sol sid = some tid then hoursOf s.sections sid else 0)).sum := by
      unfold solver_load
      rw [List.map_map]
      congr 1
      apply List.map_congr_left
      intro q hq
      have hlk : alookup q.1 s.sections = some q.2 := alookup_of_mem_nodup hq hnds
      show (if sol q.1 = some tid then q.2.get_credit_hours else 0) =
        (if sol q.1 = some tid then hoursOf s.sections q.1 else 0)
      unfold hoursOf
      rw [hlk]
    have hperm := (assignment_keys_perm s h hcov).map
      (fun sid => if sol sid = some tid then hoursOf s.sections sid else 0)
    rw [hperm.sum_eq, ← hsolver]
    exact hBt

/-- The fallback paths of `optimal_rebalance` (solver unavailable or
infeasible) conserve the total load, because the greedy pass does and the
fallback log entry touches only the timeline. -/
theorem optimal_fallback_total (s : ScheduleState) (o : Option Rat)
    (pyavail created : Bool) (h : isWF s = true) :
    total_load (optimal_rebalance pyavail created none o s) = total_load s := by
  have hlog : ∀ m : String, total_load (greedy_rebalance (s.log m) o) = total_load s := by
    intro m
    have hwf : isWF (s.log m) = true := h
    calc total_load (greedy_rebalance (s.log m) o) = total_load (s.log m) :=
        greedy_total_conserved (s.log m) o hwf
      _ = total_load s := rfl
  cases pyavail
  · simpa [optimal_rebalance] using hlog _
  · cases created
    · simpa [optimal_rebalance] using hlog _
    · by_cases hbranch : (s.sections.isEmpty || s.teachers.isEmpty) = true
      · simp [optimal_rebalance, hbranch]
      · simp only [optimal_rebalance, Bool.not_true, Bool.false_eq_true, if_false,
          hbranch, if_neg hbranch]
        exact greedy_total_conserved s o h

/-- Applying a feasible solution on a well-formed state where every section
has an assignment record and every record a teacher conserves the total load:
every record keeps contributing its section's hours, merely under a
(possibly) different teacher. -/
theorem optimal_total_conserved (s : ScheduleState) (o : Option Rat)
    (sol : String → Option String) (h : isWF s = true)
    (hfeas : feasible_solution s o sol = true)
    (hcov : sections_covered s = true)
    (hassigned : all_assigned s = true) :
    total_load (optimal_rebalance true true (some sol) o s) = total_load s := by
  obtain ⟨hndt, hnds, hnda, h4, h5, h6⟩ := isWF_parts h
  obtain ⟨hA1, hA2, hB⟩ := feasible_parts hfeas
  have hids : ∀ q ∈ s.teachers, q.2.id = q.1 := fun q hq => (h4 q hq).1
  by_cases hbranch : (s.sections.isEmpty || s.teachers.isEmpty) = true
  · simp [optimal_rebalance, hbranch]
  · have hres : optimal_rebalance true true (some sol) o s = apply_solution s sol := by
      simp only [optimal_rebalance, Bool.not_true, Bool.false_eq_true, if_false,
        if_neg hbranch]
    rw [hres]
    have hcov2 : ∀ q ∈ s.sections, (alookup q.1 s.assignments).isSome = true := by
      simp only [sections_covered, List.all_eq_true] at hcov
      exact hcov
    have hA := apply_solution_go_assignments s sol s.sections s hnds hcov2
    have hfields := apply_solution_go_fields s sol s.sections s
    have h1 : total_load (apply_solution s sol) =
        (s.teachers.map (fun p =>
          loadIn s.sections (apply_solution s sol).assignments p.2.id)).sum := by
      unfold total_load compute_teacher_load
      rw [show (apply_solution s sol).teachers = s.teachers from hfields.1]
      simp only [show (apply_solution s sol).sections = s.sections from hfields.2]
    rw [h1, sum_load_eq_sum_counted s.teachers s.sections _ hids hndt]
    rw [show (apply_solution s sol).assignments =
      s.assignments.map (fun q =>
        if q.1 ∈ s.sections.map Prod.fst then (q.1, applySol sol q.1 q.2) else q) from hA]
    rw [List.map_map]
    have hentry : ∀ q ∈ s.assignments,
        (countedIn s.teachers s.sections ∘ (fun q =>
          if q.1 ∈ s.sections.map Prod.fst then (q.1, applySol sol q.1 q.2) else q)) q =
        countedIn s.teachers s.sections q := by
      intro q hq
      have hkey : q.2.section_id = q.1 := (h6 q hq).1
      have hmemsec : q.1 ∈ s.sections.map Prod.fst := by
        have := (h6 q hq).2.1
        rw [hkey] at this
        exact alookup_isSome_iff_mem_keys.mp this
      have htch : ∃ tid0, q.2.teacher_id = some tid0 := by
        simp only [all_assigned, List.all_eq_true] at hassigned
        exact Option.isSome_iff_exists.mp (hassigned q hq)
      rcases htch with ⟨tid0, htid0⟩
      have htid0mem : (alookup tid0 s.teachers).isSome = true :=
        ((h6 q hq).2.2 tid0 htid0).2
      simp only [Function.comp, if_pos hmemsec]
      rcases hx : sol q.1 with _ | x
      · unfold countedIn applySol
        simp only [hx]
      · have hxmem : (alookup x s.teachers).isSome = true := by
          rcases Option.isSome_iff_exists.mp
            ((by rw [← hkey]; exact (h6 q hq).2.1) :
              (alookup q.1 s.sections).isSome = true) with ⟨secq, hsecq⟩
          have := hA1 (q.1, secq) (alookup_eq_some_mem hsecq) x hx
          rcases qualified_mem this with ⟨tq, htq, _⟩
          exact alookup_isSome_of_mem htq
        unfold countedIn applySol
        simp only [hx, htid0, htid0mem, hxmem, if_true]
    rw [List.map_congr_left hentry,
      ← sum_load_eq_sum_counted s.teachers s.sections s.assignments hids hndt]
    rfl

/-! Claims C1 and C2. -/

/-- A single teacher over their own cap with nobody to take the section:
`t` has `max_load_hours = 1` and already teaches the 2-hour section `S`. -/
def overloadedSoloState : ScheduleState :=
  ⟨[("t", ⟨"t", "Tina", "t@u", 1, ["C"], []⟩)], [],
   [("S", ⟨"S", "C", [⟨1, 9, 11⟩], 10, none⟩)],
   [("S", ⟨"S", some "t", none⟩)], []⟩

/-- A section whose assigned teacher is not qualified for it and that no
teacher is qualified for: the solver leaves it untouched. -/
def unstaffableState : ScheduleState :=
  ⟨[("tU", ⟨"tU", "Uma", "u@u", 1, [], []⟩)], [],
   [("SX", ⟨"SX", "X", [⟨1, 9, 11⟩], 10, none⟩)],
   [("SX", ⟨"SX", some "tU", none⟩)], []⟩

/-- Counterexample to C1 as stated: after `greedy_rebalance` (with or without
an override) the only teacher's load still exceeds their cap and the
override value, and after `optimal_rebalance` with a feasible solution a
teacher keeping an unstaffable section stays above their cap. -/
theorem c1_counterexample :
    (("t", (⟨"t", "Tina", "t@u", 1, ["C"], []⟩ : Teacher)) ∈
        (greedy_rebalance overloadedSoloState none).teachers ∧
      compute_teacher_load (greedy_rebalance overloadedSoloState none)
          ⟨"t", "Tina", "t@u", 1, ["C"], []⟩ >
        (⟨"t", "Tina", "t@u", 1, ["C"], []⟩ : Teacher).max_load_hours ∧
      compute_teacher_load (greedy_rebalance overloadedSoloState (some 1))
          ⟨"t", "Tina", "t@u", 1, ["C"], []⟩ > (1 : Rat)) ∧
    (feasible_solution unstaffableState none (fun _ => none) = true ∧
      compute_teacher_load
          (optimal_rebalance true true (some (fun _ => none)) none unstaffableState)
          ⟨"tU", "Uma", "u@u", 1, [], []⟩ >
        (⟨"tU", "Uma", "u@u", 1, [], []⟩ : Teacher).max_load_hours) := by
  exact ⟨⟨by decide, by decide, by decide⟩, by decide, by decide⟩

/-- C1 amended: after `optimal_rebalance` applying a feasible solver solution
on a well-formed state where every section has an assignment record and at
least one qualified teacher, every teacher's load is at most the effective
cap (the override if non-null and non-zero, else the teacher's own
`max_load_hours`); after `greedy_rebalance` (which ignores the override)
every teacher's load is at most the larger of their pre-call load and their
own `max_load_hours` — pre-existing overloads may persist. -/
theorem c1_amended (s : ScheduleState) (h : isWF s = true) :
    (∀ o sol, feasible_solution s o sol = true → sections_covered s = true →
      all_courses_staffable s = true → ∀ p ∈ s.teachers,
        compute_teacher_load (optimal_rebalance true true (some sol) o s) p.2 ≤
          effectiveMax o p.2) ∧
    (∀ o, ∀ p ∈ s.teachers,
      compute_teacher_load (greedy_rebalance s o) p.2 ≤
        max (compute_teacher_load s p.2) p.2.max_load_hours) := by
  constructor
  · intro o sol hfeas hcov hstaff p hp
    exact optimal_load_le s o sol h hfeas hcov hstaff hp
  · intro o p hp
    exact greedy_load_le s o h hp

/-- A small well-formed state for the witnesses: one qualified teacher with
room to spare, one covered, staffable, assigned section. -/
def witnessState : ScheduleState :=
  ⟨[("tA", ⟨"tA", "Wil", "w@u", 12, ["C1"], []⟩)], [],
   [("S1", ⟨"S1", "C1", [⟨1, 9, 11⟩], 10, none⟩)],
   [("S1", ⟨"S1", some "tA", none⟩)], []⟩

/-- The feasible solution used by the witnesses: `S1` goes to `tA`. -/
def witnessSol : String → Option String :=
  fun sid => if sid = "S1" then some "tA" else none

/-- Witness for C1 amended at a concrete state, override `5`. -/
theorem c1_witness :
    isWF witnessState = true ∧
    feasible_solution witnessState (some 5) witnessSol = true ∧
    sections_covered witnessState = true ∧
    all_courses_staffable witnessState = true ∧
    compute_teacher_load (optimal_rebalance true true (some witnessSol) (some 5) witnessState)
        ⟨"tA", "Wil", "w@u", 12, ["C1"], []⟩ ≤
      effectiveMax (some 5) ⟨"tA", "Wil", "w@u", 12, ["C1"], []⟩ ∧
    compute_teacher_load (greedy_rebalance witnessState none)
        ⟨"tA", "Wil", "w@u", 12, ["C1"], []⟩ ≤
      max (compute_teacher_load witnessState ⟨"tA", "Wil", "w@u", 12, ["C1"], []⟩)
        (⟨"tA", "Wil", "w@u", 12, ["C1"], []⟩ : Teacher).max_load_hours := by
  refine ⟨by decide, by decide, by decide, by decide, ?_, ?_⟩
  · exact (c1_amended witnessState (by decide)).1 (some 5) witnessSol (by decide) (by decide)
      (by decide) ("tA", ⟨"tA", "Wil", "w@u", 12, ["C1"], []⟩) (by decide)
  · exact (c1_amended witnessState (by decide)).2 none
      ("tA", ⟨"tA", "Wil", "w@u", 12, ["C1"], []⟩) (by decide)

/-- A state with an unassigned (but staffable) section: applying a feasible
solution assigns it and grows the total load. -/
def growState : ScheduleState :=
  ⟨[("tB", ⟨"tB", "Bob", "b@u", 10, ["C"], []⟩)], [],
   [("S1", ⟨"S1", "C", [⟨1, 9, 11⟩], 10, none⟩)],
   [("S1", ⟨"S1", none, none⟩)], []⟩

/-- The solution assigning the unassigned section. -/
def growSol : String → Option String :=
  fun sid => if sid = "S1" then some "tB" else none

/-- Counterexample to C2 as stated: `optimal_rebalance` with a feasible
solution assigns the previously unassigned 2-hour section, so the total load
grows from 0 to 2 — far beyond the claimed `0.1` epsilon. -/
theorem c2_counterexample :
    feasible_solution growState none growSol = true ∧
    total_load growState = 0 ∧
    total_load (optimal_rebalance true true (some growSol) none growState) = 2 ∧
    total_load (optimal_rebalance true true (some growSol) none growState) -
      total_load growState > (1 : Rat) / 10 := by
  refine ⟨by decide, by decide, by decide, ?_⟩
  have h1 : total_load growState = 0 := by decide
  have h2 : total_load (optimal_rebalance true true (some growSol) none growState) = 2 := by decide
  rw [h1, h2]
  norm_num

/-- C2 amended: `greedy_rebalance` conserves the total of the teachers'
computed loads exactly, as do the solver-unavailable and infeasible paths of
`optimal_rebalance`; the solver path conserves it exactly on well-formed
states where every section has an assignment record and every record already
has a teacher — but it may increase the total by assigning previously
unassigned sections. -/
theorem c2_amended (s : ScheduleState) (h : isWF s = true) :
    (∀ o, total_load (greedy_rebalance s o) = total_load s) ∧
    (∀ o pyavail created,
      total_load (optimal_rebalance pyavail created none o s) = total_load s) ∧
    (∀ o sol, feasible_solution s o sol = true → sections_covered s = true →
      all_assigned s = true →
      total_load (optimal_rebalance true true (some sol) o s) = total_load s) := by
  refine ⟨?_, ?_, ?_⟩
  · intro o
    exact greedy_total_conserved s o h
  · intro o pyavail created
    exact optimal_fallback_total s o pyavail created h
  · intro o sol hfeas hcov hassigned
    exact optimal_total_conserved s o sol h hfeas hcov hassigned

/-- Witness for C2 amended at a concrete state: all three conservation
conjuncts evaluated on `witnessState`. -/
theorem c2_witness :
    isWF witnessState = true ∧
    all_assigned witnessState = true ∧
    total_load (greedy_rebalance witnessState (some 3)) = total_load witnessState ∧
    total_load (optimal_rebalance false true none none witnessState) =
      total_load witnessState ∧
    total_load (optimal_rebalance true false none none witnessState) =
      total_load witnessState ∧
    total_load (optimal_rebalance true true (some witnessSol) none witnessState) =
      total_load witnessState := by
  refine ⟨by decide, by decide, ?_, ?_, ?_, ?_⟩
  · exact (c2_amended witnessState (by decide)).1 (some 3)
  · exact (c2_amended witnessState (by decide)).2.1 none false true
  · exact (c2_amended witnessState (by decide)).2.1 none true false
  · exact (c2_amended witnessState (by decide)).2.2 none witnessSol (by decide) (by decide)
      (by decide)

end CoolSchool
